import Mathlib

/-! Centralised mutual exclusion: coordinator and node.

A shallow embedding of `coordinator/main.go` and `node/main.go`.

* Go `int64` values are integers; every addition the program performs goes
  through `add64`, which wraps modulo `2^64` into the signed range.
* `map[string]*Client` is a finite map seen through its lookup function; the
  pointers stored in the map are never aliased, so a field update through a
  pointer is an update of the map at that key.
* `sync.RWMutex` / `sync.Mutex` is a held/free flag.  Go mutexes are not
  re-entrant: `Lock` on a held mutex parks the caller.  In a sequential run
  nobody else can release it, so the call never returns; this outcome is
  `Run.blocked`, carrying the state at the moment of parking.
* `net.Conn` is a connection identifier.  Every `conn.Write` is recorded in
  `Sent`, every `conn.Close` in `Closed`.
* `time.Now()` is an input of the operations that read the wall clock.
* `log.Printf` / `fmt.Printf` output is not part of the state.
* Go compares strings byte-wise; node ids arrive through `encoding/json` and are
  therefore valid UTF-8, for which byte order and code point order (the order
  on `String`) coincide.
-/

/-! ## Machine integers -/

/-- Smallest `int64`. -/
def minInt64 : Int := -(2 ^ 63)

/-- Largest `int64`. -/
def maxInt64 : Int := 2 ^ 63 - 1

/-- Membership in the `int64` range. -/
def isInt64 (x : Int) : Prop := minInt64 ≤ x ∧ x ≤ maxInt64

instance (x : Int) : Decidable (isInt64 x) := by
  unfold isInt64; exact inferInstance

/-- Two's complement reduction of an integer into the `int64` range. -/
def wrap64 (x : Int) : Int := (x + 2 ^ 63) % 2 ^ 64 - 2 ^ 63

/-- Go `a + b` on `int64` operands. -/
def add64 (a b : Int) : Int := wrap64 (a + b)

/-! ## Data model -/

/-- Identifier of a `net.Conn`. -/
abbrev Conn := Nat

/-- A `time.Time` value together with its rendering in the layout
`"2006-01-02 15:04:05.000"`, the only layout the coordinator writes. -/
structure Time where
  instant : Nat
  formatted : String
  deriving DecidableEq, Repr

/-- The record `Message` of both programs (field `Type` is spelled `Typ`). -/
structure Message where
  Typ : String
  NodeID : String
  Timestamp : Int
  Content : String
  deriving DecidableEq, Repr

/-- The record `QueueEntry`. -/
structure QueueEntry where
  NodeID : String
  Timestamp : Int
  Conn : Conn
  deriving DecidableEq, Repr

/-- The record `Client`. -/
structure Client where
  ID : String
  Connection : Conn
  LastSeen : Time
  InCritical : Bool
  deriving DecidableEq, Repr

/-- The record `Coordinator`.  `SharedFile` is the content of the file behind the
handle; `Sent` and `Closed` record the network effects. -/
structure Coordinator where
  Clients : String → Option Client
  RequestQueue : List QueueEntry
  SharedFile : String
  AccessLog : List String
  Mutex : Bool
  LogicalClock : Int
  CurrentHolder : String
  Sent : List (Conn × Message)
  Closed : List Conn

/-- The record `Node`.  `Sent` records the writes on `Connection`. -/
structure Node where
  ID : String
  LogicalClock : Int
  Connection : Option Conn
  Mutex : Bool
  InCritical : Bool
  RequestPending : Bool
  ConnectedToCord : Bool
  Sent : List Message
  deriving DecidableEq, Repr

/-- Outcome of a call on a state of type `σ`: it returns `val` in state `s`, or
it parks forever on a mutex in state `s`. -/
inductive Run (σ α : Type) where
  | done (val : α) (s : σ)
  | blocked (s : σ)

/-- State in which the call returned or parked. -/
def Run.state {σ α : Type} : Run σ α → σ
  | .done _ s => s
  | .blocked s => s

/-- Whether the call returned. -/
def Run.returned {σ α : Type} : Run σ α → Bool
  | .done _ _ => true
  | .blocked _ => false

/-- Sequencing: the continuation runs only if the first call returned. -/
def Run.bind {σ α β : Type} (r : Run σ α) (f : α → σ → Run σ β) : Run σ β :=
  match r with
  | .done a s => f a s
  | .blocked s => .blocked s

/-- Map assignment `m[k] = v`. -/
def mapSet (m : String → Option Client) (k : String) (v : Client) : String → Option Client :=
  fun x => if x = k then some v else m x

/-- Map deletion `delete(m, k)`. -/
def mapDelete (m : String → Option Client) (k : String) : String → Option Client :=
  fun x => if x = k then none else m x

/-! ## Coordinator -/

/-- Function `NewCoordinator`: empty table, empty queue, freshly created file, clock 0,
empty holder. -/
def NewCoordinator : Coordinator :=
  { Clients := fun _ => none
    RequestQueue := []
    SharedFile := ""
    AccessLog := []
    Mutex := false
    LogicalClock := 0
    CurrentHolder := ""
    Sent := []
    Closed := [] }

/-- The call `c.Mutex.Lock()`. -/
def Coordinator.lock (c : Coordinator) : Run Coordinator Unit :=
  if c.Mutex then .blocked c else .done () { c with Mutex := true }

/-- The call `c.Mutex.Unlock()`. -/
def Coordinator.unlock (c : Coordinator) : Coordinator :=
  { c with Mutex := false }

/-- Method `Coordinator.updateClock`. -/
def Coordinator.updateClock (receivedTimestamp : Int) (c : Coordinator) : Run Coordinator Int :=
  c.lock.bind fun _ c1 =>
    let c2 : Coordinator :=
      if receivedTimestamp > c1.LogicalClock then
        { c1 with LogicalClock := add64 receivedTimestamp 1 }
      else
        { c1 with LogicalClock := add64 c1.LogicalClock 1 }
    .done c2.LogicalClock c2.unlock

/-- Method `Coordinator.logAccess`. -/
def Coordinator.logAccess (entry : String) (c : Coordinator) : Coordinator :=
  let c1 := { c with AccessLog := c.AccessLog ++ [entry] }
  if c1.AccessLog.length > 100 then
    { c1 with AccessLog := c1.AccessLog.drop 1 }
  else c1

/-- Method `Coordinator.addClient`. -/
def Coordinator.addClient (id : String) (conn : Conn) (now : Time) (c : Coordinator) :
    Run Coordinator Unit :=
  c.lock.bind fun _ c1 =>
    let c2 := { c1 with
      Clients := mapSet c1.Clients id
        { ID := id, Connection := conn, LastSeen := now, InCritical := false } }
    let c3 := c2.logAccess ("Cliente " ++ id ++ " se unió al sistema")
    .done () c3.unlock

/-- Method `Coordinator.sendMessage`: the result of `conn.Write` is discarded. -/
def Coordinator.sendMessage (conn : Conn) (msg : Message) (c : Coordinator) : Coordinator :=
  { c with Sent := c.Sent ++ [(conn, msg)] }

/-- Go `a < b` on strings: lexicographic comparison of the characters. -/
def stringLess (a b : String) : Bool := decide (a.toList < b.toList)

/-- The comparison closure handed to `sort.Slice` in `processQueue`. -/
def queueLess (a b : QueueEntry) : Bool :=
  if a.Timestamp = b.Timestamp then stringLess a.NodeID b.NodeID
  else decide (a.Timestamp < b.Timestamp)

/-- Inner loop of the insertion sort: `x` moves left past every element it is
less than.  The list is the sorted part, stored right to left. -/
def insertLeft (less : QueueEntry → QueueEntry → Bool) (x : QueueEntry) :
    List QueueEntry → List QueueEntry
  | [] => [x]
  | y :: ys => if less x y then y :: insertLeft less x ys else x :: y :: ys

/-- Go `sort.Slice` on a short slice runs `insertionSortLessFunc`: each element in
turn is swapped leftwards while it is less than its left neighbour.  `acc` is the
already sorted part, stored right to left. -/
def insertionSortFrom (less : QueueEntry → QueueEntry → Bool) :
    List QueueEntry → List QueueEntry → List QueueEntry
  | acc, [] => acc.reverse
  | acc, x :: xs => insertionSortFrom less (insertLeft less x acc) xs

/-- The call `sort.Slice(queue, less)`, by the insertion sort Go runs on slices of
at most 12 elements.  On longer slices Go picks other strategies, after which
entries that compare equal may come in another order; the results below use only
that the outcome is a permutation of the queue ordered by `less`. -/
def sortSlice (less : QueueEntry → QueueEntry → Bool) (queue : List QueueEntry) :
    List QueueEntry :=
  insertionSortFrom less [] queue

/-- The GRANT message built in `processQueue`. -/
def grantMessage (ts : Int) : Message :=
  { Typ := "GRANT", NodeID := "COORDINATOR", Timestamp := ts,
    Content := "Acceso otorgado a sección crítica" }

/-- Method `Coordinator.processQueue`. -/
def Coordinator.processQueue (c : Coordinator) : Run Coordinator Unit :=
  if c.RequestQueue.length = 0 ∨ c.CurrentHolder ≠ "" then .done () c
  else
    let c1 := { c with RequestQueue := sortSlice queueLess c.RequestQueue }
    match c1.RequestQueue with
    | [] => .done () c1
    | entry :: rest =>
      let c2 := { c1 with RequestQueue := rest, CurrentHolder := entry.NodeID }
      let c3 : Coordinator :=
        match c2.Clients entry.NodeID with
        | some client =>
          { c2 with Clients := mapSet c2.Clients entry.NodeID { client with InCritical := true } }
        | none => c2
      (c3.updateClock 0).bind fun ts c4 =>
        .done () (c4.sendMessage entry.Conn (grantMessage ts))

/-- Method `Coordinator.removeClient`.  The deferred `Unlock` runs when the body
returns. -/
def Coordinator.removeClient (id : String) (c : Coordinator) : Run Coordinator Unit :=
  c.lock.bind fun _ c1 =>
    match c1.Clients id with
    | some client =>
      let c2 := { c1 with Closed := c1.Closed ++ [client.Connection] }
      let c3 := { c2 with Clients := mapDelete c2.Clients id }
      let c4 := { c3 with RequestQueue := c3.RequestQueue.filter (fun entry => entry.NodeID ≠ id) }
      let c5 := c4.logAccess ("Cliente " ++ id ++ " salió del sistema")
      if c5.CurrentHolder = id then
        ({ c5 with CurrentHolder := "" }).processQueue.bind fun _ c6 => .done () c6.unlock
      else .done () c5.unlock
    | none => .done () c1.unlock

/-- Method `Coordinator.writeToSharedResource`: `WriteString` appends to the file. -/
def Coordinator.writeToSharedResource (nodeID content : String) (now : Time) (c : Coordinator) :
    Coordinator :=
  let timestamp := now.formatted
  let entry := "[" ++ timestamp ++ "] " ++ nodeID ++ ": " ++ content ++ "\n"
  let c1 := { c with SharedFile := c.SharedFile ++ entry }
  c1.logAccess ("Nodo " ++ nodeID ++ " escribió al recurso en " ++ timestamp)

/-- Method `Coordinator.handleMessage`; `now` is what `time.Now()` returns during the
call. -/
def Coordinator.handleMessage (msg : Message) (conn : Conn) (now : Time) (c : Coordinator) :
    Run Coordinator Unit :=
  (c.updateClock msg.Timestamp).bind fun _ c1 =>
    if msg.Typ = "JOIN" then
      c1.addClient msg.NodeID conn now
    else if msg.Typ = "REQUEST" then
      c1.lock.bind fun _ c2 =>
        let entry : QueueEntry :=
          { NodeID := msg.NodeID, Timestamp := msg.Timestamp, Conn := conn }
        let c3 := { c2 with RequestQueue := c2.RequestQueue ++ [entry] }
        c3.unlock.processQueue
    else if msg.Typ = "RELEASE" then
      c1.lock.bind fun _ c2 =>
        let c3 : Coordinator :=
          if c2.CurrentHolder = msg.NodeID then
            let c2a := { c2 with CurrentHolder := "" }
            match c2a.Clients msg.NodeID with
            | some client =>
              { c2a with Clients := mapSet c2a.Clients msg.NodeID { client with InCritical := false } }
            | none => c2a
          else c2
        c3.unlock.processQueue
    else if msg.Typ = "HEARTBEAT" then
      match c1.Clients msg.NodeID with
      | some client =>
        .done () { c1 with Clients := mapSet c1.Clients msg.NodeID { client with LastSeen := now } }
      | none => .done () c1
    else if msg.Typ = "WRITE" then
      if c1.CurrentHolder = msg.NodeID then
        .done () (c1.writeToSharedResource msg.NodeID msg.Content now)
      else .done () c1
    else .done () c1

/-! ## Node -/

/-- The call `n.Mutex.Lock()`. -/
def Node.lock (n : Node) : Run Node Unit :=
  if n.Mutex then .blocked n else .done () { n with Mutex := true }

/-- The call `n.Mutex.Unlock()`. -/
def Node.unlock (n : Node) : Node :=
  { n with Mutex := false }

/-- Method `Node.updateClock`. -/
def Node.updateClock (receivedTimestamp : Int) (n : Node) : Run Node Int :=
  n.lock.bind fun _ n1 =>
    let n2 : Node :=
      if receivedTimestamp > n1.LogicalClock then
        { n1 with LogicalClock := add64 receivedTimestamp 1 }
      else
        { n1 with LogicalClock := add64 n1.LogicalClock 1 }
    .done n2.LogicalClock n2.unlock

/-! ## Executions of the coordinator -/

/-- One atomic step of the coordinator: a decoded message handed to
`handleMessage`, or a call of `removeClient`. -/
inductive Event where
  | message (msg : Message) (conn : Conn) (now : Time)
  | remove (id : String)

/-- Effect of one event. -/
def Coordinator.step (c : Coordinator) : Event → Run Coordinator Unit
  | .message msg conn now => c.handleMessage msg conn now
  | .remove id => c.removeClient id

/-- Runs the events in order.  Once a call has parked with the mutex held, every
later call parks at its first `Lock` without touching the state, so the run ends
there. -/
def runTrace : List Event → Coordinator → Run Coordinator Unit
  | [], c => .done () c
  | e :: es, c => (c.step e).bind fun _ c1 => runTrace es c1

/-- States between two steps of some execution from `NewCoordinator`. -/
def Reachable (c : Coordinator) : Prop :=
  ∃ tr : List Event, runTrace tr NewCoordinator = .done () c

/-- Function `NewNode`. -/
def NewNode (id : String) : Node :=
  { ID := id
    LogicalClock := 0
    Connection := none
    Mutex := false
    InCritical := false
    RequestPending := false
    ConnectedToCord := false
    Sent := [] }

/-! ## Specification vocabulary -/

/-- Lexicographic order on `(Timestamp, NodeID)`: timestamp ascending, ties
broken by ascending node id. -/
def EntryLE (a b : QueueEntry) : Prop :=
  a.Timestamp < b.Timestamp ∨ (a.Timestamp = b.Timestamp ∧ a.NodeID ≤ b.NodeID)

/-- State of `processQueue` between marking the popped entry's client and the
call `updateClock(0)`: the queue is `rest`, the holder is `entry.NodeID`. -/
def grantedState (c : Coordinator) (entry : QueueEntry) (rest : List QueueEntry) : Coordinator :=
  match c.Clients entry.NodeID with
  | some client =>
    { c with
      RequestQueue := rest
      CurrentHolder := entry.NodeID
      Clients := mapSet c.Clients entry.NodeID { client with InCritical := true } }
  | none => { c with RequestQueue := rest, CurrentHolder := entry.NodeID }

/-- State of `removeClient` just before the test `c.CurrentHolder == id`, when
the session `client` of `id` exists: the lock is held, the connection closed, the
session deleted, the queue filtered and the departure logged. -/
def purgedState (c : Coordinator) (id : String) (client : Client) : Coordinator :=
  Coordinator.logAccess ("Cliente " ++ id ++ " salió del sistema")
    { c with
      Mutex := true
      Closed := c.Closed ++ [client.Connection]
      Clients := mapDelete c.Clients id
      RequestQueue := c.RequestQueue.filter (fun entry => entry.NodeID ≠ id) }

/-- Every session is stored under its own id, and a session with a non-empty id
whose `InCritical` flag is set belongs to the holder. -/
def FlagsFollowHolder (c : Coordinator) : Prop :=
  ∀ k cl, c.Clients k = some cl →
    cl.ID = k ∧ (cl.InCritical = true → k ≠ "" → k = c.CurrentHolder)

/-! ## Concrete executions -/

/-- A wall-clock reading used in the concrete executions. -/
def exampleTime : Time := { instant := 0, formatted := "2024-01-01 00:00:00.000" }

/-- The event "message of type `typ` from `id` with timestamp `ts` arrives on
connection `conn`". -/
def msgEvent (typ id : String) (ts : Int) (conn : Conn) : Event :=
  .message { Typ := typ, NodeID := id, Timestamp := ts, Content := "" } conn exampleTime

/-- Scenario S3: two requests with equal timestamps wait while the slot is empty. -/
def tieState : Coordinator :=
  { NewCoordinator with
    RequestQueue := [{ NodeID := "B", Timestamp := 10, Conn := 2 },
                     { NodeID := "A", Timestamp := 10, Conn := 1 }] }

/-- Scenario S4 up to the death of the holder: `A` joins and is granted, `B`
joins and requests. -/
def holderDeathState : Coordinator :=
  (runTrace [msgEvent "JOIN" "A" 1 1, msgEvent "REQUEST" "A" 2 1,
             msgEvent "JOIN" "B" 1 2, msgEvent "REQUEST" "B" 2 2] NewCoordinator).state

/-- Node `A` holds the lock; `X` has requested on connection 2 without ever
sending JOIN. -/
def unjoinedRequesterState : Coordinator :=
  (runTrace [msgEvent "REQUEST" "A" 1 1, msgEvent "REQUEST" "X" 2 2] NewCoordinator).state

/-- Node `A` holds the lock and has a session; `B` has a session and waits. -/
def waitingState : Coordinator :=
  (runTrace [msgEvent "JOIN" "A" 1 1, msgEvent "JOIN" "B" 1 2, msgEvent "REQUEST" "A" 2 1,
             msgEvent "REQUEST" "B" 3 2] NewCoordinator).state

/-- State in which the execution `tr` from `NewCoordinator` returns from its last
step, or parks. -/
def lastState (tr : List Event) : Coordinator :=
  (runTrace tr NewCoordinator).state

/-- Node `A` requests on connection 1 without ever sending JOIN, and is granted. -/
def requestWithoutJoin : List Event := [msgEvent "REQUEST" "A" 1 1]

/-- Two clients join, one of them with the empty node id, and both request. -/
def emptyIdTrace : List Event :=
  [msgEvent "JOIN" "" 1 1, msgEvent "JOIN" "B" 1 2, msgEvent "REQUEST" "" 2 1,
   msgEvent "REQUEST" "B" 3 2]

/-- A WRITE with the empty node id arriving on connection 9. -/
def anonymousWrite : Event :=
  .message { Typ := "WRITE", NodeID := "", Timestamp := 1, Content := "intrusion" } 9 exampleTime

/-- Node `A` is granted; a request with the empty node id and a request of `B`
queue up behind it; `A` releases. -/
def strayReleaseTrace : List Event :=
  [msgEvent "REQUEST" "A" 1 1, msgEvent "REQUEST" "" 2 2, msgEvent "REQUEST" "B" 3 3,
   msgEvent "RELEASE" "A" 4 1]

/-- The trace leading to `waitingState`. -/
def waitingTrace : List Event :=
  [msgEvent "JOIN" "A" 1 1, msgEvent "JOIN" "B" 1 2, msgEvent "REQUEST" "A" 2 1,
   msgEvent "REQUEST" "B" 3 2]

/-! ## Node operations -/

/-- Method `Node.sendMessage`: nothing is written when `Connection` is nil. -/
def Node.sendMessage (msg : Message) (n : Node) : Node :=
  match n.Connection with
  | none => n
  | some _ => { n with Sent := n.Sent ++ [msg] }

/-- Method `Node.requestAccess`. -/
def Node.requestAccess (n : Node) : Run Node Unit :=
  n.lock.bind fun _ n1 =>
    if n1.RequestPending = true ∨ n1.InCritical = true then
      .done () n1.unlock
    else
      let n2 := { n1 with RequestPending := true }
      (n2.unlock.updateClock 0).bind fun ts n3 =>
        .done () (n3.sendMessage
          { Typ := "REQUEST", NodeID := n3.ID, Timestamp := ts,
            Content := "Solicitando acceso a sección crítica" })

/-- Method `Node.releaseAccess`. -/
def Node.releaseAccess (n : Node) : Run Node Unit :=
  n.lock.bind fun _ n1 =>
    if n1.InCritical = false then
      .done () n1.unlock
    else
      let n2 := { n1 with InCritical := false }
      (n2.unlock.updateClock 0).bind fun ts n3 =>
        .done () (n3.sendMessage
          { Typ := "RELEASE", NodeID := n3.ID, Timestamp := ts,
            Content := "Liberando sección crítica" })

/-- Method `Node.writeToResource`. -/
def Node.writeToResource (content : String) (n : Node) : Run Node Unit :=
  n.lock.bind fun _ n1 =>
    if n1.InCritical = false then
      .done () n1.unlock
    else
      (n1.unlock.updateClock 0).bind fun ts n3 =>
        .done () (n3.sendMessage
          { Typ := "WRITE", NodeID := n3.ID, Timestamp := ts, Content := content })

/-- A connected node that holds the lock. -/
def holdingNode : Node :=
  { NewNode "Node1" with Connection := some 1, ConnectedToCord := true, InCritical := true,
                         LogicalClock := 4 }

/-- A connected node that is idle. -/
def idleNode : Node :=
  { NewNode "Node1" with Connection := some 1, ConnectedToCord := true, LogicalClock := 4 }

/-- A later wall-clock reading. -/
def laterTime : Time := { instant := 7000, formatted := "2024-01-01 00:00:07.000" }

/-- JOIN from `A` arriving on the new connection 5. -/
def rejoinMessage : Message :=
  { Typ := "JOIN", NodeID := "A", Timestamp := 5, Content := "Nodo conectándose" }

/-- A `conn.Write` cannot succeed on a connection the coordinator has closed. -/
def Coordinator.unwritable (c : Coordinator) (conn : Conn) : Prop :=
  conn ∈ c.Closed

instance (c : Coordinator) (conn : Conn) : Decidable (c.unwritable conn) := by
  unfold Coordinator.unwritable; exact inferInstance

/-- Connection 1 sends JOIN as `Z`; `H` is granted on connection 2; a REQUEST of
`Y` arrives on connection 1; the session of `Z` is removed, which closes
connection 1; `H` releases. -/
def closedGranteeTrace : List Event :=
  [msgEvent "JOIN" "Z" 1 1, msgEvent "REQUEST" "H" 2 2, msgEvent "REQUEST" "Y" 3 1,
   .remove "Z", msgEvent "RELEASE" "H" 4 2]

/-- The slot is empty and the only waiting request sits on the closed
connection 1. -/
def closedGranteeState : Coordinator :=
  { NewCoordinator with
    RequestQueue := [{ NodeID := "Y", Timestamp := 3, Conn := 1 }]
    Closed := [1]
    LogicalClock := 7 }

/-- Number of line feeds in a string. -/
def lineFeeds (s : String) : Nat := s.toList.count (Char.ofNat 10)

/-- A WRITE of the holder `A` whose content holds a line feed. -/
def multiLineWrite : Message :=
  { Typ := "WRITE", NodeID := "A", Timestamp := 9, Content := "a\nb" }

/-- The node id an event carries: the `node_id` of the message, or the argument
of `removeClient`. -/
def Event.nodeID : Event → String
  | .message msg _ _ => msg.NodeID
  | .remove id => id

/-- Every session is stored under a non-empty id. -/
def KeysNonEmpty (c : Coordinator) : Prop :=
  ∀ k cl, c.Clients k = some cl → k ≠ ""

/-- An empty holder slot means an empty queue, and no queue entry carries the
empty node id. -/
def SlotBusyWhileWaiting (c : Coordinator) : Prop :=
  (c.CurrentHolder = "" → c.RequestQueue = []) ∧ ∀ e ∈ c.RequestQueue, e.NodeID ≠ ""

/-- The clock has room for the event: for a message with timestamp `t` handled
at clock `c`, neither the advance on receipt nor the advance for a GRANT can pass
the largest `int64`, that is `max c t + 2` is at most the largest `int64`.  A
`removeClient` call never advances the clock. -/
def Event.room (c : Coordinator) : Event → Bool
  | .message msg _ _ => decide (max c.LogicalClock msg.Timestamp + 2 ≤ maxInt64)
  | .remove _ => true

/-- The clock has room for every event of the execution, at the state in which
the event is handled. -/
def noWrap : List Event → Coordinator → Bool
  | [], _ => true
  | e :: es, c => e.room c && noWrap es (c.step e).state

/-- The clock is a non-negative `int64` and lies strictly ahead of the timestamp
of every queue entry. -/
def ClockAhead (c : Coordinator) : Prop :=
  0 ≤ c.LogicalClock ∧ c.LogicalClock ≤ maxInt64
    ∧ ∀ e ∈ c.RequestQueue, e.Timestamp < c.LogicalClock

/-- Node `B` is granted, then a REQUEST of `A` carries the largest `int64` as
timestamp. -/
def wrapTrace : List Event :=
  [msgEvent "REQUEST" "B" 1 1, msgEvent "REQUEST" "A" 9223372036854775807 2]

/-! ## Lock discipline

The same functions once more, this time as the sequence of mutex operations and
assignments to the shared fields that a call performs, in program order. -/

/-- The shared fields of `Coordinator` that the mutex is meant to protect. -/
inductive SharedField where
  | Clients
  | RequestQueue
  | CurrentHolder
  | LogicalClock
  | AccessLog
  deriving DecidableEq, Repr

/-- One step of a call that matters for the lock discipline. -/
inductive LockAction where
  | lock
  | unlock
  | write (f : SharedField)
  deriving DecidableEq, Repr

/-- Actions of `updateClock`: `Lock`, the assignment to `LogicalClock`, the
deferred `Unlock`. -/
def updateClockActions : List LockAction :=
  [.lock, .write .LogicalClock, .unlock]

/-- Actions of `logAccess`: the append, and the reslice when the log exceeds 100
entries. -/
def logAccessActions (c : Coordinator) : List LockAction :=
  [.write .AccessLog] ++
    (if c.AccessLog.length + 1 > 100 then [.write .AccessLog] else [])

/-- Actions of `addClient`. -/
def addClientActions (c : Coordinator) : List LockAction :=
  [.lock, .write .Clients] ++ logAccessActions c ++ [.unlock]

/-- Actions of `processQueue`: the in-place sort, the pop, the assignment to
`CurrentHolder`, the flag of the client if it exists, then `updateClock(0)`.  The
function itself never touches the mutex. -/
def processQueueActions (c : Coordinator) : List LockAction :=
  if c.RequestQueue.length = 0 ∨ c.CurrentHolder ≠ "" then []
  else
    [.write .RequestQueue] ++
      (match sortSlice queueLess c.RequestQueue with
      | [] => []
      | entry :: _ =>
        [.write .RequestQueue, .write .CurrentHolder] ++
          (match c.Clients entry.NodeID with
          | some _ => [.write .Clients]
          | none => []) ++
          updateClockActions)

/-- Actions of `removeClient`; `processQueue` runs before the deferred `Unlock`. -/
def removeClientActions (id : String) (c : Coordinator) : List LockAction :=
  [.lock] ++
    (match c.Clients id with
    | some client =>
      [.write .Clients, .write .RequestQueue] ++ logAccessActions c ++
        (if c.CurrentHolder = id then
          [.write .CurrentHolder] ++
            processQueueActions { purgedState c id client with CurrentHolder := "" }
        else [])
    | none => []) ++
    [.unlock]

/-- Actions of `handleMessage`.  The branch conditions of `processQueue` read the
queue, the holder and the presence of a session, which the clock update and the
reset of a flag leave as they are. -/
def handleMessageActions (msg : Message) (conn : Conn) (c : Coordinator) : List LockAction :=
  updateClockActions ++
    (if msg.Typ = "JOIN" then
      addClientActions c
    else if msg.Typ = "REQUEST" then
      let entry : QueueEntry :=
        { NodeID := msg.NodeID, Timestamp := msg.Timestamp, Conn := conn }
      [.lock, .write .RequestQueue, .unlock] ++
        processQueueActions { c with RequestQueue := c.RequestQueue ++ [entry] }
    else if msg.Typ = "RELEASE" then
      if c.CurrentHolder = msg.NodeID then
        [.lock, .write .CurrentHolder] ++
          (match c.Clients msg.NodeID with
          | some _ => [.write .Clients]
          | none => []) ++
          [.unlock] ++ processQueueActions { c with CurrentHolder := "" }
      else
        [.lock, .unlock] ++ processQueueActions c
    else if msg.Typ = "HEARTBEAT" then
      match c.Clients msg.NodeID with
      | some _ => [.write .Clients]
      | none => []
    else if msg.Typ = "WRITE" then
      if c.CurrentHolder = msg.NodeID then logAccessActions c else []
    else [])

/-- Checks a sequence of actions, `held` telling whether the mutex is held at its
start: every assignment to a shared field must happen while the mutex is held.
A `lock` on a held mutex parks the call, so nothing after it happens. -/
def writesUnderLock : Bool → List LockAction → Bool
  | _, [] => true
  | held, .lock :: rest => if held then true else writesUnderLock true rest
  | _, .unlock :: rest => writesUnderLock false rest
  | held, .write _ :: rest => held && writesUnderLock held rest

/-- Scenario S4 at the moment `removeClient "A"` calls `processQueue`: the mutex
is held by `removeClient`, the session of `A` is deleted, the slot has been
emptied and the request of `B` waits. -/
def orphanedQueueState : Coordinator :=
  { purgedState holderDeathState "A"
      { ID := "A", Connection := 1, LastSeen := exampleTime, InCritical := true } with
    CurrentHolder := "" }

/-! ## Arithmetic of `int64` -/

theorem wrap64_eq_self (x : Int) (h : isInt64 x) : wrap64 x = x := by
  unfold isInt64 minInt64 maxInt64 at h
  unfold wrap64
  norm_num at h ⊢
  omega

theorem add64_one_exact (x : Int) (h : isInt64 x) (hlt : x < maxInt64) : add64 x 1 = x + 1 := by
  unfold add64
  apply wrap64_eq_self
  unfold isInt64 minInt64 maxInt64 at *
  norm_num at h hlt ⊢
  omega

/-! ## The logical clock -/

theorem Coordinator.updateClock_free (c : Coordinator) (t : Int) (h : c.Mutex = false) :
    c.updateClock t =
      .done (add64 (max c.LogicalClock t) 1)
        { c with LogicalClock := add64 (max c.LogicalClock t) 1 } := by
  obtain ⟨cl, q, f, a, m, k, ho, se, cd⟩ := c
  simp only at h
  subst h
  by_cases hgt : t > k
  · have hmax : max k t = t := max_eq_right (le_of_lt hgt)
    simp [Coordinator.updateClock, Coordinator.lock, Run.bind, Coordinator.unlock, hgt, hmax]
  · have hmax : max k t = k := max_eq_left (not_lt.mp hgt)
    simp [Coordinator.updateClock, Coordinator.lock, Run.bind, Coordinator.unlock, hgt, hmax]

theorem Node.updateClock_ready (n : Node) (t : Int) (h : n.Mutex = false) :
    n.updateClock t =
      .done (add64 (max n.LogicalClock t) 1)
        { n with LogicalClock := add64 (max n.LogicalClock t) 1 } := by
  obtain ⟨i, k, co, m, ic, rp, cc, se⟩ := n
  simp only at h
  subst h
  by_cases hgt : t > k
  · have hmax : max k t = t := max_eq_right (le_of_lt hgt)
    simp [Node.updateClock, Node.lock, Run.bind, Node.unlock, hgt, hmax]
  · have hmax : max k t = k := max_eq_left (not_lt.mp hgt)
    simp [Node.updateClock, Node.lock, Run.bind, Node.unlock, hgt, hmax]

/-! ## Sequencing -/

@[simp] theorem Run.state_done {σ α : Type} (a : α) (s : σ) : (Run.done a s).state = s := rfl

@[simp] theorem Run.state_blocked {σ α : Type} (s : σ) :
    (Run.blocked s : Run σ α).state = s := rfl

@[simp] theorem Run.returned_done {σ α : Type} (a : α) (s : σ) :
    (Run.done a s).returned = true := rfl

@[simp] theorem Run.returned_blocked {σ α : Type} (s : σ) :
    (Run.blocked s : Run σ α).returned = false := rfl

@[simp] theorem Run.bind_done {σ α β : Type} (a : α) (s : σ) (f : α → σ → Run σ β) :
    (Run.done a s).bind f = f a s := rfl

@[simp] theorem Run.bind_blocked {σ α β : Type} (s : σ) (f : α → σ → Run σ β) :
    (Run.blocked s : Run σ α).bind f = .blocked s := rfl

theorem Coordinator.updateClock_held (c : Coordinator) (t : Int) (h : c.Mutex = true) :
    c.updateClock t = .blocked c := by
  simp [Coordinator.updateClock, Coordinator.lock, h]

/-! ## The comparison of `processQueue` and the sort -/

theorem stringLess_iff (a b : String) : stringLess a b = true ↔ a < b := by
  unfold stringLess
  rw [decide_eq_true_iff]
  exact String.lt_iff_toList_lt.symm

theorem queueLess_iff (a b : QueueEntry) :
    queueLess a b = true ↔
      a.Timestamp < b.Timestamp ∨ (a.Timestamp = b.Timestamp ∧ a.NodeID < b.NodeID) := by
  unfold queueLess
  split
  · rename_i h
    rw [stringLess_iff]
    constructor
    · intro hlt; exact Or.inr ⟨h, hlt⟩
    · rintro (hlt | ⟨_, hlt⟩)
      · omega
      · exact hlt
  · rename_i h
    rw [decide_eq_true_iff]
    constructor
    · intro hlt; exact Or.inl hlt
    · rintro (hlt | ⟨heq, _⟩)
      · exact hlt
      · exact absurd heq h

theorem queueLess_false_iff (a b : QueueEntry) : queueLess a b = false ↔ EntryLE b a := by
  rw [← Bool.not_eq_true, queueLess_iff]
  unfold EntryLE
  constructor
  · intro h
    rcases lt_trichotomy b.Timestamp a.Timestamp with hlt | heq | hgt
    · exact Or.inl hlt
    · refine Or.inr ⟨heq, ?_⟩
      by_contra hn
      exact h (Or.inr ⟨heq.symm, not_le.mp hn⟩)
    · exact absurd (Or.inl hgt) h
  · rintro (hlt | ⟨heq, hle⟩) (hlt2 | ⟨heq2, hlt2⟩)
    · omega
    · omega
    · omega
    · exact absurd hlt2 (not_lt.mpr hle)

theorem EntryLE_trans (a b c : QueueEntry) (hab : EntryLE a b) (hbc : EntryLE b c) :
    EntryLE a c := by
  unfold EntryLE at *
  rcases hab with hab | ⟨hab, hab2⟩ <;> rcases hbc with hbc | ⟨hbc, hbc2⟩
  · exact Or.inl (by omega)
  · exact Or.inl (by omega)
  · exact Or.inl (by omega)
  · exact Or.inr ⟨by omega, le_trans hab2 hbc2⟩

theorem EntryLE_total (a b : QueueEntry) : EntryLE a b ∨ EntryLE b a := by
  unfold EntryLE
  rcases lt_trichotomy a.Timestamp b.Timestamp with hlt | heq | hgt
  · exact Or.inl (Or.inl hlt)
  · rcases le_total a.NodeID b.NodeID with h | h
    · exact Or.inl (Or.inr ⟨heq, h⟩)
    · exact Or.inr (Or.inr ⟨heq.symm, h⟩)
  · exact Or.inr (Or.inl hgt)

theorem queueLess_asymm (a b : QueueEntry) (h : queueLess a b = true) : queueLess b a = false := by
  rw [queueLess_false_iff]
  rcases EntryLE_total a b with hab | hba
  · exact hab
  · rw [← queueLess_false_iff] at hba
    rw [hba] at h
    exact absurd h (by decide)

theorem queueLess_negTrans (a b c : QueueEntry) (hab : queueLess a b = false)
    (hbc : queueLess b c = false) : queueLess a c = false := by
  rw [queueLess_false_iff] at *
  exact EntryLE_trans c b a hbc hab

theorem insertLeft_perm (less : QueueEntry → QueueEntry → Bool) (x : QueueEntry)
    (l : List QueueEntry) : (insertLeft less x l).Perm (x :: l) := by
  induction l with
  | nil => exact List.Perm.refl _
  | cons y ys ih =>
    unfold insertLeft
    split
    · exact (List.Perm.cons y ih).trans (List.Perm.swap x y ys)
    · exact List.Perm.refl _

theorem insertionSortFrom_perm (less : QueueEntry → QueueEntry → Bool)
    (acc l : List QueueEntry) : (insertionSortFrom less acc l).Perm (acc ++ l) := by
  induction l generalizing acc with
  | nil => simp [insertionSortFrom]
  | cons x xs ih =>
    unfold insertionSortFrom
    refine (ih (insertLeft less x acc)).trans ?_
    refine (List.Perm.append_right xs (insertLeft_perm less x acc)).trans ?_
    simpa using (@List.perm_middle _ x acc xs).symm

theorem sortSlice_perm (less : QueueEntry → QueueEntry → Bool) (l : List QueueEntry) :
    (sortSlice less l).Perm l := by
  simpa [sortSlice] using insertionSortFrom_perm less [] l

theorem insertLeft_pairwise (less : QueueEntry → QueueEntry → Bool)
    (hasym : ∀ a b, less a b = true → less b a = false)
    (hneg : ∀ a b c, less a b = false → less b c = false → less a c = false)
    (x : QueueEntry) (l : List QueueEntry) (h : l.Pairwise (fun a b => less a b = false)) :
    (insertLeft less x l).Pairwise (fun a b => less a b = false) := by
  induction l with
  | nil => simp [insertLeft]
  | cons y ys ih =>
    rw [List.pairwise_cons] at h
    unfold insertLeft
    split
    · rename_i hxy
      rw [List.pairwise_cons]
      refine ⟨?_, ih h.2⟩
      intro w hw
      rcases List.mem_cons.mp ((insertLeft_perm less x ys).mem_iff.mp hw) with hwx | hwys
      · rw [hwx]; exact hasym x y hxy
      · exact h.1 w hwys
    · rename_i hxy
      have hxy2 : less x y = false := by simpa using hxy
      rw [List.pairwise_cons]
      refine ⟨?_, List.pairwise_cons.mpr h⟩
      intro w hw
      rcases List.mem_cons.mp hw with hwy | hwys
      · rw [hwy]; exact hxy2
      · exact hneg x y w hxy2 (h.1 w hwys)

theorem insertionSortFrom_pairwise (less : QueueEntry → QueueEntry → Bool)
    (hasym : ∀ a b, less a b = true → less b a = false)
    (hneg : ∀ a b c, less a b = false → less b c = false → less a c = false)
    (acc l : List QueueEntry) (h : acc.Pairwise (fun a b => less a b = false)) :
    (insertionSortFrom less acc l).Pairwise (fun a b => less b a = false) := by
  induction l generalizing acc with
  | nil =>
    unfold insertionSortFrom
    rw [List.pairwise_reverse]
    exact h
  | cons x xs ih =>
    unfold insertionSortFrom
    exact ih _ (insertLeft_pairwise less hasym hneg x acc h)

/-- The slice sorted by `processQueue` is ordered by `(Timestamp, NodeID)`. -/
theorem sortSlice_queueLess_sorted (l : List QueueEntry) :
    (sortSlice queueLess l).Pairwise EntryLE := by
  have h := insertionSortFrom_pairwise queueLess queueLess_asymm queueLess_negTrans [] l
    List.Pairwise.nil
  unfold sortSlice
  exact h.imp (fun {a b} hab => (queueLess_false_iff b a).mp hab)

theorem EntryLE_refl (a : QueueEntry) : EntryLE a a := by
  rcases EntryLE_total a a with h | h <;> exact h

/-- The head of the sorted slice is least among all entries of the queue. -/
theorem sortSlice_head_least (l : List QueueEntry) (e : QueueEntry) (rest : List QueueEntry)
    (h : sortSlice queueLess l = e :: rest) : ∀ x ∈ l, EntryLE e x := by
  intro x hx
  have hs := sortSlice_queueLess_sorted l
  rw [h, List.pairwise_cons] at hs
  have hx2 : x ∈ e :: rest := by
    rw [← h]; exact (sortSlice_perm queueLess l).mem_iff.mpr hx
  rcases List.mem_cons.mp hx2 with hxe | hxr
  · rw [hxe]; exact EntryLE_refl e
  · exact hs.1 x hxr

theorem sortSlice_ne_nil (l : List QueueEntry) (h : l ≠ []) : sortSlice queueLess l ≠ [] := by
  intro hnil
  have hp := sortSlice_perm queueLess l
  rw [hnil] at hp
  exact h (List.Perm.nil_eq hp).symm

/-! ## Closed forms of `processQueue` -/

@[simp] theorem grantedState_RequestQueue (c : Coordinator) (e : QueueEntry)
    (rest : List QueueEntry) : (grantedState c e rest).RequestQueue = rest := by
  unfold grantedState; split <;> rfl

@[simp] theorem grantedState_CurrentHolder (c : Coordinator) (e : QueueEntry)
    (rest : List QueueEntry) : (grantedState c e rest).CurrentHolder = e.NodeID := by
  unfold grantedState; split <;> rfl

@[simp] theorem grantedState_Mutex (c : Coordinator) (e : QueueEntry)
    (rest : List QueueEntry) : (grantedState c e rest).Mutex = c.Mutex := by
  unfold grantedState; split <;> rfl

@[simp] theorem grantedState_LogicalClock (c : Coordinator) (e : QueueEntry)
    (rest : List QueueEntry) : (grantedState c e rest).LogicalClock = c.LogicalClock := by
  unfold grantedState; split <;> rfl

@[simp] theorem grantedState_Sent (c : Coordinator) (e : QueueEntry)
    (rest : List QueueEntry) : (grantedState c e rest).Sent = c.Sent := by
  unfold grantedState; split <;> rfl

@[simp] theorem grantedState_AccessLog (c : Coordinator) (e : QueueEntry)
    (rest : List QueueEntry) : (grantedState c e rest).AccessLog = c.AccessLog := by
  unfold grantedState; split <;> rfl

@[simp] theorem grantedState_SharedFile (c : Coordinator) (e : QueueEntry)
    (rest : List QueueEntry) : (grantedState c e rest).SharedFile = c.SharedFile := by
  unfold grantedState; split <;> rfl

@[simp] theorem grantedState_Closed (c : Coordinator) (e : QueueEntry)
    (rest : List QueueEntry) : (grantedState c e rest).Closed = c.Closed := by
  unfold grantedState; split <;> rfl

theorem grantedState_Clients (c : Coordinator) (e : QueueEntry) (rest : List QueueEntry)
    (k : String) :
    (grantedState c e rest).Clients k =
      if k = e.NodeID then (c.Clients k).map (fun cl => { cl with InCritical := true })
      else c.Clients k := by
  unfold grantedState
  split
  · rename_i cl h
    by_cases hk : k = e.NodeID
    · subst hk; simp [mapSet, h]
    · simp [mapSet, hk]
  · rename_i h
    by_cases hk : k = e.NodeID
    · subst hk; simp [h]
    · simp [hk]

theorem Coordinator.processQueue_idle (c : Coordinator)
    (h : c.RequestQueue = [] ∨ c.CurrentHolder ≠ "") : c.processQueue = .done () c := by
  unfold Coordinator.processQueue
  rw [if_pos]
  rcases h with h | h
  · exact Or.inl (by simp [h])
  · exact Or.inr h

theorem Coordinator.processQueue_pop (c : Coordinator) (hq : c.RequestQueue ≠ [])
    (hh : c.CurrentHolder = "") (e : QueueEntry) (rest : List QueueEntry)
    (hs : sortSlice queueLess c.RequestQueue = e :: rest) :
    c.processQueue =
      ((grantedState c e rest).updateClock 0).bind fun ts c4 =>
        .done () (c4.sendMessage e.Conn (grantMessage ts)) := by
  unfold Coordinator.processQueue
  rw [if_neg]
  · simp only [hs]
    unfold grantedState
    cases hcl : c.Clients e.NodeID <;> simp [hcl]
  · simp [hq, hh]

/-- With the mutex free `processQueue` pops, grants and returns. -/
theorem Coordinator.processQueue_free (c : Coordinator) (hq : c.RequestQueue ≠ [])
    (hh : c.CurrentHolder = "") (e : QueueEntry) (rest : List QueueEntry)
    (hs : sortSlice queueLess c.RequestQueue = e :: rest) (hm : c.Mutex = false) :
    c.processQueue =
      .done () (Coordinator.sendMessage e.Conn (grantMessage (add64 (max c.LogicalClock 0) 1))
        { grantedState c e rest with LogicalClock := add64 (max c.LogicalClock 0) 1 }) := by
  rw [c.processQueue_pop hq hh e rest hs,
    Coordinator.updateClock_free _ 0 (by simpa using hm)]
  simp

/-- With the mutex held by the caller `processQueue` parks in `updateClock`
after it has popped the entry and set the holder, before any GRANT is sent. -/
theorem Coordinator.processQueue_held (c : Coordinator) (hq : c.RequestQueue ≠ [])
    (hh : c.CurrentHolder = "") (e : QueueEntry) (rest : List QueueEntry)
    (hs : sortSlice queueLess c.RequestQueue = e :: rest) (hm : c.Mutex = true) :
    c.processQueue = .blocked (grantedState c e rest) := by
  rw [c.processQueue_pop hq hh e rest hs,
    Coordinator.updateClock_held _ 0 (by simpa using hm)]
  simp

/-- C2 fails on the code when `processQueue` is entered with the mutex held, as
`removeClient` enters it.  In every state with the holder slot empty and a
non-empty queue, `processQueue` picks an entry `e` of the queue that is least
for the order `(Timestamp, NodeID)` (timestamp ascending, ties by ascending node
id), sets `CurrentHolder` to `e.NodeID` and leaves as queue the other entries:
the old queue is a permutation of `e` followed by the new queue.  Entered with
the mutex free, as from `handleMessage`, it returns having written exactly one
message, the GRANT, on the connection of `e`.  Entered with the mutex held it
never returns and writes nothing: the GRANT is not emitted. -/
theorem processQueue_grant_needs_free_mutex (c : Coordinator) (hh : c.CurrentHolder = "")
    (hq : c.RequestQueue ≠ []) :
    ∃ e : QueueEntry,
      e ∈ c.RequestQueue
      ∧ (∀ x ∈ c.RequestQueue, EntryLE e x)
      ∧ c.processQueue.state.CurrentHolder = e.NodeID
      ∧ c.RequestQueue.Perm (e :: c.processQueue.state.RequestQueue)
      ∧ (c.Mutex = false →
          c.processQueue.returned = true
          ∧ c.processQueue.state.Sent =
              c.Sent ++ [(e.Conn,
                { Typ := "GRANT", NodeID := "COORDINATOR",
                  Timestamp := add64 (max c.LogicalClock 0) 1,
                  Content := "Acceso otorgado a sección crítica" })])
      ∧ (c.Mutex = true →
          c.processQueue.returned = false
          ∧ c.processQueue.state.Sent = c.Sent
          ∧ c.processQueue.state.Mutex = true) := by
  cases hs : sortSlice queueLess c.RequestQueue with
  | nil => exact absurd hs (sortSlice_ne_nil _ hq)
  | cons e rest =>
    have hperm : c.RequestQueue.Perm (e :: rest) := by
      rw [← hs]; exact (sortSlice_perm queueLess _).symm
    refine ⟨e, hperm.mem_iff.mpr (List.mem_cons_self e rest),
      sortSlice_head_least _ e rest hs, ?_, ?_, ?_, ?_⟩
    · rcases Bool.eq_false_or_eq_true c.Mutex with hm | hm
      · rw [c.processQueue_held hq hh e rest hs hm]; simp
      · rw [c.processQueue_free hq hh e rest hs hm]; simp [Coordinator.sendMessage]
    · rcases Bool.eq_false_or_eq_true c.Mutex with hm | hm
      · rw [c.processQueue_held hq hh e rest hs hm]; simpa using hperm
      · rw [c.processQueue_free hq hh e rest hs hm]; simpa [Coordinator.sendMessage] using hperm
    · intro hm
      rw [c.processQueue_free hq hh e rest hs hm]
      simp [Coordinator.sendMessage, grantMessage]
    · intro hm
      rw [c.processQueue_held hq hh e rest hs hm]
      simp [hm]

/-! ## Frame of `logAccess` -/

@[simp] theorem logAccess_Clients (c : Coordinator) (e : String) :
    (c.logAccess e).Clients = c.Clients := by
  unfold Coordinator.logAccess; simp only; split <;> rfl

@[simp] theorem logAccess_RequestQueue (c : Coordinator) (e : String) :
    (c.logAccess e).RequestQueue = c.RequestQueue := by
  unfold Coordinator.logAccess; simp only; split <;> rfl

@[simp] theorem logAccess_SharedFile (c : Coordinator) (e : String) :
    (c.logAccess e).SharedFile = c.SharedFile := by
  unfold Coordinator.logAccess; simp only; split <;> rfl

@[simp] theorem logAccess_Mutex (c : Coordinator) (e : String) :
    (c.logAccess e).Mutex = c.Mutex := by
  unfold Coordinator.logAccess; simp only; split <;> rfl

@[simp] theorem logAccess_LogicalClock (c : Coordinator) (e : String) :
    (c.logAccess e).LogicalClock = c.LogicalClock := by
  unfold Coordinator.logAccess; simp only; split <;> rfl

@[simp] theorem logAccess_CurrentHolder (c : Coordinator) (e : String) :
    (c.logAccess e).CurrentHolder = c.CurrentHolder := by
  unfold Coordinator.logAccess; simp only; split <;> rfl

@[simp] theorem logAccess_Sent (c : Coordinator) (e : String) :
    (c.logAccess e).Sent = c.Sent := by
  unfold Coordinator.logAccess; simp only; split <;> rfl

@[simp] theorem logAccess_Closed (c : Coordinator) (e : String) :
    (c.logAccess e).Closed = c.Closed := by
  unfold Coordinator.logAccess; simp only; split <;> rfl

theorem logAccess_AccessLog (c : Coordinator) (e : String) :
    (c.logAccess e).AccessLog =
      if c.AccessLog.length < 100 then c.AccessLog ++ [e] else (c.AccessLog ++ [e]).drop 1 := by
  unfold Coordinator.logAccess
  simp only [List.length_append, List.length_singleton]
  by_cases h : c.AccessLog.length < 100
  · rw [if_neg (by omega), if_pos h]
  · rw [if_pos (by omega), if_neg h]

theorem logAccess_length_le (c : Coordinator) (e : String) (h : c.AccessLog.length ≤ 100) :
    (c.logAccess e).AccessLog.length ≤ 100 := by
  rw [logAccess_AccessLog]
  split
  · simp; omega
  · simp; omega

/-! ## Closed forms of `removeClient` -/

theorem Coordinator.removeClient_held (c : Coordinator) (id : String) (h : c.Mutex = true) :
    c.removeClient id = .blocked c := by
  simp [Coordinator.removeClient, Coordinator.lock, h]

theorem Coordinator.removeClient_absent (c : Coordinator) (id : String)
    (hm : c.Mutex = false) (hs : c.Clients id = none) : c.removeClient id = .done () c := by
  obtain ⟨cl, q, f, a, m, k, ho, se, cd⟩ := c
  simp only at hm hs
  subst hm
  simp [Coordinator.removeClient, Coordinator.lock, Coordinator.unlock, hs]

theorem Coordinator.removeClient_present (c : Coordinator) (id : String) (client : Client)
    (hm : c.Mutex = false) (hs : c.Clients id = some client) :
    c.removeClient id =
      if c.CurrentHolder = id then
        (Coordinator.processQueue { purgedState c id client with CurrentHolder := "" }).bind
          fun _ c6 => .done () c6.unlock
      else .done () (purgedState c id client).unlock := by
  simp [Coordinator.removeClient, Coordinator.lock, hm, hs, purgedState]

@[simp] theorem purgedState_RequestQueue (c : Coordinator) (id : String) (client : Client) :
    (purgedState c id client).RequestQueue =
      c.RequestQueue.filter (fun entry => entry.NodeID ≠ id) := by
  simp [purgedState]

@[simp] theorem purgedState_Clients (c : Coordinator) (id : String) (client : Client) :
    (purgedState c id client).Clients = mapDelete c.Clients id := by
  simp [purgedState]

@[simp] theorem purgedState_CurrentHolder (c : Coordinator) (id : String) (client : Client) :
    (purgedState c id client).CurrentHolder = c.CurrentHolder := by
  simp [purgedState]

@[simp] theorem purgedState_Mutex (c : Coordinator) (id : String) (client : Client) :
    (purgedState c id client).Mutex = true := by
  simp [purgedState]

@[simp] theorem purgedState_Sent (c : Coordinator) (id : String) (client : Client) :
    (purgedState c id client).Sent = c.Sent := by
  simp [purgedState]

@[simp] theorem purgedState_LogicalClock (c : Coordinator) (id : String) (client : Client) :
    (purgedState c id client).LogicalClock = c.LogicalClock := by
  simp [purgedState]

@[simp] theorem purgedState_SharedFile (c : Coordinator) (id : String) (client : Client) :
    (purgedState c id client).SharedFile = c.SharedFile := by
  simp [purgedState]

@[simp] theorem purgedState_Closed (c : Coordinator) (id : String) (client : Client) :
    (purgedState c id client).Closed = c.Closed ++ [client.Connection] := by
  simp [purgedState]

theorem purgedState_AccessLog (c : Coordinator) (id : String) (client : Client) :
    (purgedState c id client).AccessLog =
      (c.logAccess ("Cliente " ++ id ++ " salió del sistema")).AccessLog := by
  simp [purgedState, logAccess_AccessLog]

/-- Removing the holder while another request waits: `processQueue` runs with the
lock held by `removeClient` and parks in `updateClock`. -/
theorem Coordinator.removeClient_holder_waiting (c : Coordinator) (id : String)
    (client : Client) (hm : c.Mutex = false) (hs : c.Clients id = some client)
    (hh : c.CurrentHolder = id) (e : QueueEntry) (rest : List QueueEntry)
    (hsort : sortSlice queueLess (c.RequestQueue.filter (fun entry => entry.NodeID ≠ id))
      = e :: rest) :
    c.removeClient id =
      .blocked (grantedState { purgedState c id client with CurrentHolder := "" } e rest) := by
  rw [c.removeClient_present id client hm hs, if_pos hh]
  have hq : (c.RequestQueue.filter (fun entry => entry.NodeID ≠ id)) ≠ [] := by
    intro hnil
    rw [hnil] at hsort
    simp [sortSlice, insertionSortFrom] at hsort
  rw [Coordinator.processQueue_held _ (by simpa using hq) rfl e rest (by simpa using hsort)
    (by simp)]
  simp

/-- Removing the holder while nobody else waits returns with the slot empty. -/
theorem Coordinator.removeClient_holder_alone (c : Coordinator) (id : String)
    (client : Client) (hm : c.Mutex = false) (hs : c.Clients id = some client)
    (hh : c.CurrentHolder = id)
    (hq : c.RequestQueue.filter (fun entry => entry.NodeID ≠ id) = []) :
    c.removeClient id =
      .done () (Coordinator.unlock { purgedState c id client with CurrentHolder := "" }) := by
  rw [c.removeClient_present id client hm hs, if_pos hh]
  rw [Coordinator.processQueue_idle _ (Or.inl (by simpa using hq))]
  simp

/-! ## Closed forms of `handleMessage` -/

theorem mapSet_of_some (m : String → Option Client) (id : String) (v : Client)
    (f : Client → Client) (h : m id = some v) :
    mapSet m id (f v) = fun k => if k = id then (m k).map f else m k := by
  funext x
  by_cases hx : x = id
  · subst hx; simp [mapSet, h]
  · simp [mapSet, hx]

theorem map_of_none (m : String → Option Client) (id : String)
    (f : Client → Client) (h : m id = none) :
    m = fun k => if k = id then (m k).map f else m k := by
  funext x
  by_cases hx : x = id
  · subst hx; simp [h]
  · simp [hx]

theorem Coordinator.handleMessage_held (c : Coordinator) (msg : Message) (conn : Conn)
    (now : Time) (h : c.Mutex = true) : c.handleMessage msg conn now = .blocked c := by
  simp [Coordinator.handleMessage, Coordinator.updateClock_held c _ h]

theorem Coordinator.handleMessage_join (c : Coordinator) (msg : Message) (conn : Conn)
    (now : Time) (hm : c.Mutex = false) (ht : msg.Typ = "JOIN") :
    c.handleMessage msg conn now =
      .done () (Coordinator.logAccess ("Cliente " ++ msg.NodeID ++ " se unió al sistema")
        { c with
          LogicalClock := add64 (max c.LogicalClock msg.Timestamp) 1
          Clients := mapSet c.Clients msg.NodeID
            { ID := msg.NodeID, Connection := conn, LastSeen := now, InCritical := false } }) := by
  obtain ⟨cl, q, f, a, m, k, ho, se, cd⟩ := c
  simp only at hm
  subst hm
  unfold Coordinator.handleMessage
  rw [Coordinator.updateClock_free _ _ rfl]
  simp only [Run.bind_done, ht, if_true, Coordinator.addClient, Coordinator.lock,
    Coordinator.unlock]
  simp only [Bool.false_eq_true, if_false, Run.bind_done]
  congr 1
  unfold Coordinator.logAccess
  simp only
  split <;> rfl

theorem Coordinator.handleMessage_request (c : Coordinator) (msg : Message) (conn : Conn)
    (now : Time) (hm : c.Mutex = false) (ht : msg.Typ = "REQUEST") :
    c.handleMessage msg conn now =
      Coordinator.processQueue
        { c with
          LogicalClock := add64 (max c.LogicalClock msg.Timestamp) 1
          RequestQueue := c.RequestQueue ++
            [{ NodeID := msg.NodeID, Timestamp := msg.Timestamp, Conn := conn }] } := by
  obtain ⟨cl, q, f, a, m, k, ho, se, cd⟩ := c
  simp only at hm
  subst hm
  unfold Coordinator.handleMessage
  rw [Coordinator.updateClock_free _ _ rfl]
  simp [ht, Coordinator.lock, Coordinator.unlock]

/-- State of the RELEASE branch of `handleMessage` when it calls `processQueue`. -/
theorem Coordinator.handleMessage_release (c : Coordinator) (msg : Message) (conn : Conn)
    (now : Time) (hm : c.Mutex = false) (ht : msg.Typ = "RELEASE") :
    c.handleMessage msg conn now =
      Coordinator.processQueue
        (if c.CurrentHolder = msg.NodeID then
          { c with
            LogicalClock := add64 (max c.LogicalClock msg.Timestamp) 1
            CurrentHolder := ""
            Clients := fun k =>
              if k = msg.NodeID then (c.Clients k).map (fun cl => { cl with InCritical := false })
              else c.Clients k }
        else { c with LogicalClock := add64 (max c.LogicalClock msg.Timestamp) 1 }) := by
  obtain ⟨cl, q, f, a, m, k, ho, se, cd⟩ := c
  simp only at hm
  subst hm
  unfold Coordinator.handleMessage
  rw [Coordinator.updateClock_free _ _ rfl]
  by_cases hh : ho = msg.NodeID
  · cases hcl : cl msg.NodeID with
    | none =>
      rw [← map_of_none cl msg.NodeID _ hcl]
      simp [ht, Coordinator.lock, Coordinator.unlock, hh, hcl]
    | some v =>
      rw [← mapSet_of_some cl msg.NodeID v _ hcl]
      simp [ht, Coordinator.lock, Coordinator.unlock, hh, hcl]
  · simp [ht, Coordinator.lock, Coordinator.unlock, hh]

theorem Coordinator.handleMessage_heartbeat (c : Coordinator) (msg : Message) (conn : Conn)
    (now : Time) (hm : c.Mutex = false) (ht : msg.Typ = "HEARTBEAT") :
    c.handleMessage msg conn now =
      .done ()
        { c with
          LogicalClock := add64 (max c.LogicalClock msg.Timestamp) 1
          Clients := fun k =>
            if k = msg.NodeID then (c.Clients k).map (fun cl => { cl with LastSeen := now })
            else c.Clients k } := by
  obtain ⟨cl, q, f, a, m, k, ho, se, cd⟩ := c
  simp only at hm
  subst hm
  unfold Coordinator.handleMessage
  rw [Coordinator.updateClock_free _ _ rfl]
  cases hcl : cl msg.NodeID with
  | none =>
    rw [← map_of_none cl msg.NodeID _ hcl]
    simp [ht, hcl]
  | some v =>
    rw [← mapSet_of_some cl msg.NodeID v _ hcl]
    simp [ht, hcl]

theorem Coordinator.handleMessage_write (c : Coordinator) (msg : Message) (conn : Conn)
    (now : Time) (hm : c.Mutex = false) (ht : msg.Typ = "WRITE") :
    c.handleMessage msg conn now =
      if c.CurrentHolder = msg.NodeID then
        .done () (Coordinator.writeToSharedResource msg.NodeID msg.Content now
          { c with LogicalClock := add64 (max c.LogicalClock msg.Timestamp) 1 })
      else .done () { c with LogicalClock := add64 (max c.LogicalClock msg.Timestamp) 1 } := by
  obtain ⟨cl, q, f, a, m, k, ho, se, cd⟩ := c
  simp only at hm
  subst hm
  unfold Coordinator.handleMessage
  rw [Coordinator.updateClock_free _ _ rfl]
  simp [ht]

theorem Coordinator.handleMessage_other (c : Coordinator) (msg : Message) (conn : Conn)
    (now : Time) (hm : c.Mutex = false) (h1 : msg.Typ ≠ "JOIN") (h2 : msg.Typ ≠ "REQUEST")
    (h3 : msg.Typ ≠ "RELEASE") (h4 : msg.Typ ≠ "HEARTBEAT") (h5 : msg.Typ ≠ "WRITE") :
    c.handleMessage msg conn now =
      .done () { c with LogicalClock := add64 (max c.LogicalClock msg.Timestamp) 1 } := by
  obtain ⟨cl, q, f, a, m, k, ho, se, cd⟩ := c
  simp only at hm
  subst hm
  unfold Coordinator.handleMessage
  rw [Coordinator.updateClock_free _ _ rfl]
  simp only [Run.bind_done]
  rw [if_neg h1, if_neg h2, if_neg h3, if_neg h4, if_neg h5]

/-! ## Frame of `writeToSharedResource` -/

@[simp] theorem writeToSharedResource_Clients (c : Coordinator) (n x : String) (t : Time) :
    (c.writeToSharedResource n x t).Clients = c.Clients := by
  simp [Coordinator.writeToSharedResource]

@[simp] theorem writeToSharedResource_CurrentHolder (c : Coordinator) (n x : String) (t : Time) :
    (c.writeToSharedResource n x t).CurrentHolder = c.CurrentHolder := by
  simp [Coordinator.writeToSharedResource]

@[simp] theorem writeToSharedResource_RequestQueue (c : Coordinator) (n x : String) (t : Time) :
    (c.writeToSharedResource n x t).RequestQueue = c.RequestQueue := by
  simp [Coordinator.writeToSharedResource]

@[simp] theorem writeToSharedResource_Mutex (c : Coordinator) (n x : String) (t : Time) :
    (c.writeToSharedResource n x t).Mutex = c.Mutex := by
  simp [Coordinator.writeToSharedResource]

@[simp] theorem writeToSharedResource_LogicalClock (c : Coordinator) (n x : String) (t : Time) :
    (c.writeToSharedResource n x t).LogicalClock = c.LogicalClock := by
  simp [Coordinator.writeToSharedResource]

@[simp] theorem writeToSharedResource_Sent (c : Coordinator) (n x : String) (t : Time) :
    (c.writeToSharedResource n x t).Sent = c.Sent := by
  simp [Coordinator.writeToSharedResource]

theorem writeToSharedResource_SharedFile (c : Coordinator) (n x : String) (t : Time) :
    (c.writeToSharedResource n x t).SharedFile =
      c.SharedFile ++ ("[" ++ t.formatted ++ "] " ++ n ++ ": " ++ x ++ "\n") := by
  simp [Coordinator.writeToSharedResource]

theorem writeToSharedResource_AccessLog (c : Coordinator) (n x : String) (t : Time) :
    (c.writeToSharedResource n x t).AccessLog =
      (c.logAccess ("Nodo " ++ n ++ " escribió al recurso en " ++ t.formatted)).AccessLog := by
  simp [Coordinator.writeToSharedResource, logAccess_AccessLog]

/-! ## Executions -/

/-- A property kept by every step, in the state where the step returns or parks,
holds in the last state of every execution. -/
theorem runTrace_invariant (P : Coordinator → Prop)
    (hstep : ∀ (c : Coordinator) (e : Event), P c → P (c.step e).state)
    (tr : List Event) (c : Coordinator) (h : P c) : P (runTrace tr c).state := by
  induction tr generalizing c with
  | nil => simpa [runTrace] using h
  | cons e es ih =>
    unfold runTrace
    have hs := hstep c e h
    cases hr : c.step e with
    | done v s =>
      rw [hr] at hs
      simpa using ih s hs
    | blocked s =>
      rw [hr] at hs
      simpa using hs

/-- The states `processQueue` can end in. -/
theorem Coordinator.processQueue_state (c : Coordinator) :
    c.processQueue.state = c
    ∨ ∃ (e : QueueEntry) (rest : List QueueEntry),
        c.CurrentHolder = "" ∧ sortSlice queueLess c.RequestQueue = e :: rest
        ∧ (c.processQueue.state = grantedState c e rest
          ∨ c.processQueue.state =
              Coordinator.sendMessage e.Conn (grantMessage (add64 (max c.LogicalClock 0) 1))
                { grantedState c e rest with LogicalClock := add64 (max c.LogicalClock 0) 1 }) := by
  by_cases hidle : c.RequestQueue = [] ∨ c.CurrentHolder ≠ ""
  · left
    rw [c.processQueue_idle hidle]
    rfl
  · right
    simp only [not_or, not_not] at hidle
    cases hs : sortSlice queueLess c.RequestQueue with
    | nil => exact absurd hs (sortSlice_ne_nil _ hidle.1)
    | cons e rest =>
      refine ⟨e, rest, hidle.2, rfl, ?_⟩
      cases hm : c.Mutex
      · right
        rw [c.processQueue_free hidle.1 hidle.2 e rest hs hm]
        rfl
      · left
        rw [c.processQueue_held hidle.1 hidle.2 e rest hs hm]
        rfl

theorem Coordinator.processQueue_AccessLog (c : Coordinator) :
    c.processQueue.state.AccessLog = c.AccessLog := by
  rcases c.processQueue_state with h | ⟨e, rest, _, _, h | h⟩ <;> rw [h] <;>
    simp [Coordinator.sendMessage]

theorem Coordinator.processQueue_SharedFile (c : Coordinator) :
    c.processQueue.state.SharedFile = c.SharedFile := by
  rcases c.processQueue_state with h | ⟨e, rest, _, _, h | h⟩ <;> rw [h] <;>
    simp [Coordinator.sendMessage]

theorem Run.state_bind_unlock (r : Run Coordinator Unit) :
    (r.bind fun _ c6 => .done () c6.unlock).state = r.state
    ∨ (r.bind fun _ c6 => .done () c6.unlock).state = r.state.unlock := by
  cases r with
  | done v s => right; rfl
  | blocked s => left; rfl

/-! ## The access log -/

theorem accessLog_step (c : Coordinator) (e : Event) (h : c.AccessLog.length ≤ 100) :
    (c.step e).state.AccessLog.length ≤ 100 := by
  cases hm : c.Mutex with
  | true =>
    cases e with
    | message msg conn now => simpa [Coordinator.step, c.handleMessage_held msg conn now hm] using h
    | remove id => simpa [Coordinator.step, c.removeClient_held id hm] using h
  | false =>
    cases e with
    | message msg conn now =>
      simp only [Coordinator.step]
      by_cases h1 : msg.Typ = "JOIN"
      · rw [c.handleMessage_join msg conn now hm h1]
        exact logAccess_length_le _ _ h
      by_cases h2 : msg.Typ = "REQUEST"
      · rw [c.handleMessage_request msg conn now hm h2, Coordinator.processQueue_AccessLog]
        exact h
      by_cases h3 : msg.Typ = "RELEASE"
      · rw [c.handleMessage_release msg conn now hm h3, Coordinator.processQueue_AccessLog]
        split <;> exact h
      by_cases h4 : msg.Typ = "HEARTBEAT"
      · rw [c.handleMessage_heartbeat msg conn now hm h4]
        exact h
      by_cases h5 : msg.Typ = "WRITE"
      · rw [c.handleMessage_write msg conn now hm h5]
        split
        · simp only [Run.state_done, writeToSharedResource_AccessLog]
          exact logAccess_length_le _ _ h
        · exact h
      · rw [c.handleMessage_other msg conn now hm h1 h2 h3 h4 h5]
        exact h
    | remove id =>
      simp only [Coordinator.step]
      cases hs : c.Clients id with
      | none => rw [c.removeClient_absent id hm hs]; exact h
      | some client =>
        have hp : (purgedState c id client).AccessLog.length ≤ 100 := by
          rw [purgedState_AccessLog]; exact logAccess_length_le _ _ h
        rw [c.removeClient_present id client hm hs]
        split
        · rcases Run.state_bind_unlock
            (Coordinator.processQueue { purgedState c id client with CurrentHolder := "" })
            with hb | hb
          · rw [hb, Coordinator.processQueue_AccessLog]; exact hp
          · rw [hb]
            show (Coordinator.processQueue _).state.AccessLog.length ≤ 100
            rw [Coordinator.processQueue_AccessLog]; exact hp
        · exact hp

/-- C10. Access-log ring.  On a log of at most 100 entries `logAccess e` appends
`e` when fewer than 100 entries are present and otherwise drops the oldest entry
and appends `e`; the result has at most 100 entries.  Hence the log has at most
100 entries in the last state of every execution from `NewCoordinator`, and after
any sequence of `logAccess` calls on an empty log. -/
theorem accessLog_ring (c : Coordinator) (e : String) (h : c.AccessLog.length ≤ 100) :
    (c.AccessLog.length < 100 → (c.logAccess e).AccessLog = c.AccessLog ++ [e])
    ∧ (c.AccessLog.length = 100 → (c.logAccess e).AccessLog = c.AccessLog.tail ++ [e])
    ∧ (c.logAccess e).AccessLog.length ≤ 100
    ∧ (∀ tr : List Event, (runTrace tr NewCoordinator).state.AccessLog.length ≤ 100)
    ∧ (∀ (c0 : Coordinator) (es : List String), c0.AccessLog = [] →
        (es.foldl (fun s x => s.logAccess x) c0).AccessLog.length ≤ 100) := by
  refine ⟨?_, ?_, logAccess_length_le c e h, ?_, ?_⟩
  · intro hlt
    rw [logAccess_AccessLog, if_pos hlt]
  · intro heq
    rw [logAccess_AccessLog, if_neg (by omega)]
    cases hl : c.AccessLog with
    | nil => rw [hl] at heq; simp at heq
    | cons a l => simp
  · intro tr
    exact runTrace_invariant (fun s => s.AccessLog.length ≤ 100) accessLog_step tr
      NewCoordinator (by simp [NewCoordinator])
  · intro c0 es h0
    have hgen : ∀ (l : List String) (s : Coordinator), s.AccessLog.length ≤ 100 →
        (l.foldl (fun s x => s.logAccess x) s).AccessLog.length ≤ 100 := by
      intro l
      induction l with
      | nil => intro s hs; simpa using hs
      | cons x xs ih =>
        intro s hs
        simp only [List.foldl_cons]
        exact ih _ (logAccess_length_le s x hs)
    exact hgen es c0 (by simp [h0])

/-- C10 at the empty log of `NewCoordinator`. -/
theorem accessLog_ring_witness :
    NewCoordinator.AccessLog.length ≤ 100
    ∧ (NewCoordinator.logAccess "Cliente A se unió al sistema").AccessLog =
        NewCoordinator.AccessLog ++ ["Cliente A se unió al sistema"] :=
  ⟨by decide,
    (accessLog_ring NewCoordinator "Cliente A se unió al sistema" (by decide)).1 (by decide)⟩

/-! ## The grant order on scenarios S3 and S4 -/

set_option maxRecDepth 100000

/-- Scenario S3: with `B` and `A` both stamped 10 and the mutex free, the grant
goes to `A`, on its connection, and `B` stays in the queue. -/
theorem tieState_grants_A :
    tieState.processQueue.returned = true
    ∧ tieState.processQueue.state.CurrentHolder = "A"
    ∧ tieState.processQueue.state.RequestQueue = [{ NodeID := "B", Timestamp := 10, Conn := 2 }]
    ∧ tieState.processQueue.state.Sent =
        [(1, { Typ := "GRANT", NodeID := "COORDINATOR", Timestamp := 1,
               Content := "Acceso otorgado a sección crítica" })] := by
  decide

/-- C2 on scenario S4.  `removeClient "A"` runs `processQueue` in a state where
the slot is empty, `B` waits and the mutex is held: `B` becomes the holder and
leaves the queue, but the call never returns and no GRANT is written. -/
theorem processQueue_grant_needs_free_mutex_witness :
    orphanedQueueState.CurrentHolder = "" ∧ orphanedQueueState.RequestQueue ≠ []
    ∧ orphanedQueueState.Mutex = true
    ∧ holderDeathState.removeClient "A" =
        (orphanedQueueState.processQueue.bind fun _ c6 => .done () c6.unlock)
    ∧ orphanedQueueState.processQueue.returned = false
    ∧ orphanedQueueState.processQueue.state.CurrentHolder = "B"
    ∧ orphanedQueueState.processQueue.state.RequestQueue = []
    ∧ orphanedQueueState.processQueue.state.Sent = orphanedQueueState.Sent
    ∧ ∃ e : QueueEntry,
        e ∈ orphanedQueueState.RequestQueue
        ∧ (∀ x ∈ orphanedQueueState.RequestQueue, EntryLE e x)
        ∧ orphanedQueueState.processQueue.state.CurrentHolder = e.NodeID
        ∧ orphanedQueueState.RequestQueue.Perm
            (e :: orphanedQueueState.processQueue.state.RequestQueue)
        ∧ (orphanedQueueState.Mutex = false →
            orphanedQueueState.processQueue.returned = true
            ∧ orphanedQueueState.processQueue.state.Sent =
                orphanedQueueState.Sent ++ [(e.Conn,
                  { Typ := "GRANT", NodeID := "COORDINATOR",
                    Timestamp := add64 (max orphanedQueueState.LogicalClock 0) 1,
                    Content := "Acceso otorgado a sección crítica" })])
        ∧ (orphanedQueueState.Mutex = true →
            orphanedQueueState.processQueue.returned = false
            ∧ orphanedQueueState.processQueue.state.Sent = orphanedQueueState.Sent
            ∧ orphanedQueueState.processQueue.state.Mutex = true) := by
  have hs : holderDeathState.Clients "A" =
      some { ID := "A", Connection := 1, LastSeen := exampleTime, InCritical := true } := by
    decide
  have hrm := holderDeathState.removeClient_present "A" _ (by decide) hs
  rw [if_pos (by decide)] at hrm
  exact ⟨rfl, by decide, by decide, hrm, by decide, by decide, by decide, by decide,
    processQueue_grant_needs_free_mutex orphanedQueueState rfl (by decide)⟩

/-! ## WRITE from a node that is not the holder -/

/-- C5. Non-holder write is dropped.  Handling a WRITE whose `node_id` differs
from `CurrentHolder` returns a state that differs from the old one in the logical
clock only: nothing is appended to the shared resource, and `AccessLog`,
`RequestQueue`, `CurrentHolder`, the client table and the messages sent are
unchanged. -/
theorem write_by_non_holder_dropped (c : Coordinator) (msg : Message) (conn : Conn)
    (now : Time) (hm : c.Mutex = false) (ht : msg.Typ = "WRITE")
    (hn : msg.NodeID ≠ c.CurrentHolder) :
    c.handleMessage msg conn now =
      .done () { c with LogicalClock := add64 (max c.LogicalClock msg.Timestamp) 1 } := by
  rw [c.handleMessage_write msg conn now hm ht, if_neg (fun h => hn h.symm)]

/-- C5 on scenario S6: `D` writes "intrusion" while `A` holds the lock. -/
theorem write_by_non_holder_dropped_witness :
    waitingState.Mutex = false
    ∧ ("D" : String) ≠ waitingState.CurrentHolder
    ∧ waitingState.handleMessage
        { Typ := "WRITE", NodeID := "D", Timestamp := 9, Content := "intrusion" } 4 exampleTime =
      .done ()
        { waitingState with LogicalClock := add64 (max waitingState.LogicalClock 9) 1 } := by
  have hm : waitingState.Mutex = false := by decide
  have hn : ("D" : String) ≠ waitingState.CurrentHolder := by decide
  exact ⟨hm, hn, write_by_non_holder_dropped waitingState
    { Typ := "WRITE", NodeID := "D", Timestamp := 9, Content := "intrusion" } 4 exampleTime
    hm rfl hn⟩

/-! ## Departure of a node -/

/-- C7. Holder-death recovery fails.  When the holder has a session and a request
of another node waits, `removeClient` of the holder never returns: it calls
`processQueue` with the mutex held, and `processQueue` parks in
`updateClock(0)`.  In the state where it parks the mutex is still held and no
message has been sent. -/
theorem removeClient_of_holder_parks (c : Coordinator) (id : String) (client : Client)
    (hm : c.Mutex = false) (hs : c.Clients id = some client) (hh : c.CurrentHolder = id)
    (hq : ∃ e ∈ c.RequestQueue, e.NodeID ≠ id) :
    (c.removeClient id).returned = false
    ∧ (c.removeClient id).state.Mutex = true
    ∧ (c.removeClient id).state.Sent = c.Sent := by
  obtain ⟨x, hx, hxid⟩ := hq
  have hne : c.RequestQueue.filter (fun entry => entry.NodeID ≠ id) ≠ [] := by
    intro hnil
    have : x ∈ c.RequestQueue.filter (fun entry => entry.NodeID ≠ id) :=
      List.mem_filter.mpr ⟨hx, by simpa using hxid⟩
    rw [hnil] at this
    exact absurd this (List.not_mem_nil x)
  cases hsort : sortSlice queueLess (c.RequestQueue.filter (fun entry => entry.NodeID ≠ id)) with
  | nil => exact absurd hsort (sortSlice_ne_nil _ hne)
  | cons e rest =>
    rw [c.removeClient_holder_waiting id client hm hs hh e rest hsort]
    simp

/-- C7 on scenario S4: `A` holds the lock, `B` waits, the session of `A` is
removed. -/
theorem removeClient_of_holder_parks_witness :
    holderDeathState.Mutex = false
    ∧ holderDeathState.CurrentHolder = "A"
    ∧ holderDeathState.RequestQueue = [{ NodeID := "B", Timestamp := 2, Conn := 2 }]
    ∧ (holderDeathState.removeClient "A").returned = false
    ∧ (holderDeathState.removeClient "A").state.Mutex = true
    ∧ (holderDeathState.removeClient "A").state.Sent = holderDeathState.Sent := by
  have hm : holderDeathState.Mutex = false := by decide
  have hh : holderDeathState.CurrentHolder = "A" := by decide
  have hq : holderDeathState.RequestQueue = [{ NodeID := "B", Timestamp := 2, Conn := 2 }] := by
    decide
  have hs : holderDeathState.Clients "A" =
      some { ID := "A", Connection := 1, LastSeen := exampleTime, InCritical := true } := by
    decide
  exact ⟨hm, hh, hq,
    removeClient_of_holder_parks holderDeathState "A" _ hm hs hh
      ⟨{ NodeID := "B", Timestamp := 2, Conn := 2 }, by rw [hq]; simp, by decide⟩⟩

/-- C6 as stated fails.  `A` holds the lock and `X` has requested without
sending JOIN; when the connection of `X` closes, `removeClient "X"` returns and
the request of `X` is still in the queue. -/
theorem removeClient_keeps_unjoined_request :
    (runTrace [msgEvent "REQUEST" "A" 1 1, msgEvent "REQUEST" "X" 2 2] NewCoordinator).returned
      = true
    ∧ (unjoinedRequesterState.removeClient "X").returned = true
    ∧ ¬ (∀ e ∈ (unjoinedRequesterState.removeClient "X").state.RequestQueue, e.NodeID ≠ "X") := by
  decide

/-- C6, amended.  `removeClient id` on a state without a session for `id` returns
and changes nothing.  On a state with a session for `id`, in the state where the
call returns or parks: no queue entry has `NodeID = id`, the session is deleted,
and if `id` was the holder the slot is empty or names another node.  Whenever the
call returns, the queue is the old queue without the entries of `id`, the others
in their old order; it returns whenever `id` is not the holder. -/
theorem removeClient_purges_queue (c : Coordinator) (id : String) (hm : c.Mutex = false) :
    (c.Clients id = none → c.removeClient id = .done () c)
    ∧ (∀ client : Client, c.Clients id = some client →
        (∀ e ∈ (c.removeClient id).state.RequestQueue, e.NodeID ≠ id)
        ∧ (c.removeClient id).state.Clients id = none
        ∧ (c.CurrentHolder = id →
            (c.removeClient id).state.CurrentHolder = ""
            ∨ (c.removeClient id).state.CurrentHolder ≠ id)
        ∧ ((c.removeClient id).returned = true →
            (c.removeClient id).state.RequestQueue =
              c.RequestQueue.filter (fun entry => entry.NodeID ≠ id))
        ∧ (c.CurrentHolder ≠ id → (c.removeClient id).returned = true)) := by
  refine ⟨c.removeClient_absent id hm, ?_⟩
  intro client hs
  have hfilter : ∀ e ∈ c.RequestQueue.filter (fun entry => entry.NodeID ≠ id), e.NodeID ≠ id := by
    intro e he
    simpa using (List.mem_filter.mp he).2
  by_cases hh : c.CurrentHolder = id
  · cases hsort :
        sortSlice queueLess (c.RequestQueue.filter (fun entry => entry.NodeID ≠ id)) with
    | nil =>
      have hq : c.RequestQueue.filter (fun entry => entry.NodeID ≠ id) = [] := by
        by_contra hne
        exact sortSlice_ne_nil _ hne hsort
      rw [c.removeClient_holder_alone id client hm hs hh hq]
      simp [Coordinator.unlock, mapDelete, hq]
    | cons e rest =>
      have hperm := sortSlice_perm queueLess
        (c.RequestQueue.filter (fun entry => entry.NodeID ≠ id))
      rw [hsort] at hperm
      have hmem : ∀ x ∈ e :: rest, x.NodeID ≠ id := fun x hx =>
        hfilter x (hperm.mem_iff.mp hx)
      have he : e.NodeID ≠ id := hmem e (List.mem_cons_self e rest)
      rw [c.removeClient_holder_waiting id client hm hs hh e rest hsort]
      refine ⟨?_, ?_, ?_, ?_, ?_⟩
      · intro x hx
        rw [Run.state_blocked, grantedState_RequestQueue] at hx
        exact hmem x (List.mem_cons_of_mem e hx)
      · rw [Run.state_blocked, grantedState_Clients]
        simp [mapDelete]
      · intro _
        right
        simpa using he
      · intro hret
        simp at hret
      · intro hne
        exact absurd hh hne
  · rw [c.removeClient_present id client hm hs, if_neg hh]
    refine ⟨?_, ?_, ?_, ?_, ?_⟩
    · intro x hx
      exact hfilter x (by simpa [Coordinator.unlock] using hx)
    · simp [Coordinator.unlock, mapDelete]
    · intro h; exact absurd h hh
    · intro _; simp [Coordinator.unlock]
    · intro _; rfl

/-- C6, amended, on a state where `B` has a session and waits behind the holder
`A`: removing `B` returns and empties the queue. -/
theorem removeClient_purges_queue_witness :
    waitingState.Mutex = false
    ∧ waitingState.Clients "B" =
        some { ID := "B", Connection := 2, LastSeen := exampleTime, InCritical := false }
    ∧ waitingState.RequestQueue = [{ NodeID := "B", Timestamp := 3, Conn := 2 }]
    ∧ (waitingState.removeClient "B").returned = true
    ∧ (∀ e ∈ (waitingState.removeClient "B").state.RequestQueue, e.NodeID ≠ "B") := by
  have hm : waitingState.Mutex = false := by decide
  have hs : waitingState.Clients "B" =
      some { ID := "B", Connection := 2, LastSeen := exampleTime, InCritical := false } := by
    decide
  have h := (removeClient_purges_queue waitingState "B" hm).2 _ hs
  exact ⟨hm, hs, by decide, h.2.2.2.2 (by decide), h.1⟩

/-! ## Holder slot and session flags -/

theorem FlagsFollowHolder_congr (c d : Coordinator) (hc : d.Clients = c.Clients)
    (hh : d.CurrentHolder = c.CurrentHolder) (h : FlagsFollowHolder c) :
    FlagsFollowHolder d := by
  intro k cl hk
  rw [hc] at hk
  rw [hh]
  exact h k cl hk

theorem flags_grantedState (c : Coordinator) (e : QueueEntry) (rest : List QueueEntry)
    (h : FlagsFollowHolder c) (hh : c.CurrentHolder = "") :
    FlagsFollowHolder (grantedState c e rest) := by
  intro k cl hk
  rw [grantedState_Clients] at hk
  rw [grantedState_CurrentHolder]
  by_cases hke : k = e.NodeID
  · rw [if_pos hke] at hk
    cases hc : c.Clients k with
    | none => rw [hc] at hk; simp at hk
    | some cl0 =>
      rw [hc] at hk
      simp only [Option.map_some', Option.some.injEq] at hk
      subst hk
      exact ⟨(h k cl0 hc).1, fun _ _ => hke⟩
  · rw [if_neg hke] at hk
    refine ⟨(h k cl hk).1, ?_⟩
    intro hcrit hne
    have := (h k cl hk).2 hcrit hne
    rw [hh] at this
    exact absurd this hne

theorem flags_processQueue (c : Coordinator) (h : FlagsFollowHolder c) :
    FlagsFollowHolder c.processQueue.state := by
  rcases c.processQueue_state with hs | ⟨e, rest, hh, _, hs | hs⟩
  · rw [hs]; exact h
  · rw [hs]; exact flags_grantedState c e rest h hh
  · rw [hs]
    exact FlagsFollowHolder_congr (grantedState c e rest) _ rfl rfl
      (flags_grantedState c e rest h hh)

theorem flags_step (c : Coordinator) (e : Event) (h : FlagsFollowHolder c) :
    FlagsFollowHolder (c.step e).state := by
  cases hm : c.Mutex with
  | true =>
    cases e with
    | message msg conn now =>
      simpa [Coordinator.step, c.handleMessage_held msg conn now hm] using h
    | remove id => simpa [Coordinator.step, c.removeClient_held id hm] using h
  | false =>
    cases e with
    | message msg conn now =>
      simp only [Coordinator.step]
      by_cases h1 : msg.Typ = "JOIN"
      · rw [c.handleMessage_join msg conn now hm h1]
        intro k cl hk
        simp only [Run.state_done, logAccess_Clients, logAccess_CurrentHolder, mapSet] at hk ⊢
        split at hk
        · rename_i hke
          simp only [Option.some.injEq] at hk
          subst hk
          exact ⟨hke.symm, fun hcrit => by simp at hcrit⟩
        · exact h k cl hk
      by_cases h2 : msg.Typ = "REQUEST"
      · rw [c.handleMessage_request msg conn now hm h2]
        exact flags_processQueue _ (FlagsFollowHolder_congr c _ rfl rfl h)
      by_cases h3 : msg.Typ = "RELEASE"
      · rw [c.handleMessage_release msg conn now hm h3]
        apply flags_processQueue
        split
        · rename_i hh
          intro k cl hk
          simp only at hk ⊢
          by_cases hke : k = msg.NodeID
          · rw [if_pos hke] at hk
            cases hc : c.Clients k with
            | none => rw [hc] at hk; simp at hk
            | some cl0 =>
              rw [hc] at hk
              simp only [Option.map_some', Option.some.injEq] at hk
              subst hk
              exact ⟨(h k cl0 hc).1, fun hcrit => by simp at hcrit⟩
          · rw [if_neg hke] at hk
            refine ⟨(h k cl hk).1, ?_⟩
            intro hcrit hne
            have := (h k cl hk).2 hcrit hne
            rw [hh] at this
            exact absurd this hke
        · exact FlagsFollowHolder_congr c _ rfl rfl h
      by_cases h4 : msg.Typ = "HEARTBEAT"
      · rw [c.handleMessage_heartbeat msg conn now hm h4]
        intro k cl hk
        simp only [Run.state_done] at hk ⊢
        by_cases hke : k = msg.NodeID
        · rw [if_pos hke] at hk
          cases hc : c.Clients k with
          | none => rw [hc] at hk; simp at hk
          | some cl0 =>
            rw [hc] at hk
            simp only [Option.map_some', Option.some.injEq] at hk
            subst hk
            exact h k cl0 hc
        · rw [if_neg hke] at hk
          exact h k cl hk
      by_cases h5 : msg.Typ = "WRITE"
      · rw [c.handleMessage_write msg conn now hm h5]
        split
        · exact FlagsFollowHolder_congr c _ (by simp) (by simp) h
        · exact FlagsFollowHolder_congr c _ rfl rfl h
      · rw [c.handleMessage_other msg conn now hm h1 h2 h3 h4 h5]
        exact FlagsFollowHolder_congr c _ rfl rfl h
    | remove id =>
      simp only [Coordinator.step]
      cases hs : c.Clients id with
      | none => rw [c.removeClient_absent id hm hs]; exact h
      | some client =>
        have hdel : ∀ k cl, mapDelete c.Clients id k = some cl → k ≠ id ∧ c.Clients k = some cl := by
          intro k cl hk
          unfold mapDelete at hk
          split at hk
          · simp at hk
          · rename_i hne; exact ⟨hne, hk⟩
        rw [c.removeClient_present id client hm hs]
        split
        · rename_i hh
          have hp : FlagsFollowHolder { purgedState c id client with CurrentHolder := "" } := by
            intro k cl hk
            simp only [purgedState_Clients] at hk ⊢
            obtain ⟨hne, hk2⟩ := hdel k cl hk
            refine ⟨(h k cl hk2).1, ?_⟩
            intro hcrit hne2
            have := (h k cl hk2).2 hcrit hne2
            rw [hh] at this
            exact absurd this hne
          have hq := flags_processQueue _ hp
          rcases Run.state_bind_unlock
            (Coordinator.processQueue { purgedState c id client with CurrentHolder := "" })
            with hb | hb
          · rw [hb]; exact hq
          · rw [hb]; exact FlagsFollowHolder_congr _ _ rfl rfl hq
        · intro k cl hk
          simp only [Run.state_done, Coordinator.unlock, purgedState_Clients,
            purgedState_CurrentHolder] at hk ⊢
          obtain ⟨_, hk2⟩ := hdel k cl hk
          exact h k cl hk2

theorem flags_lastState (tr : List Event) : FlagsFollowHolder (lastState tr) :=
  runTrace_invariant FlagsFollowHolder flags_step tr NewCoordinator
    (by intro k cl hk; simp [NewCoordinator] at hk)

/-- C8 as stated fails.  After a REQUEST of `A`, who never sent JOIN, the call
has returned, `CurrentHolder` is `A` and the client table is empty: the slot is
non-empty although every client has `InCritical = false`, and no client has
`InCritical = true`. -/
theorem holder_without_session_flag :
    (runTrace requestWithoutJoin NewCoordinator).returned = true
    ∧ (lastState requestWithoutJoin).CurrentHolder ≠ ""
    ∧ ¬ ((lastState requestWithoutJoin).CurrentHolder = "" ↔
          ∀ k cl, (lastState requestWithoutJoin).Clients k = some cl → cl.InCritical = false)
    ∧ ¬ ∃ k cl, (lastState requestWithoutJoin).Clients k = some cl ∧ cl.InCritical = true := by
  have hnone : ∀ k, (lastState requestWithoutJoin).Clients k = none := fun _ => rfl
  have hne : (lastState requestWithoutJoin).CurrentHolder ≠ "" := by decide
  refine ⟨by decide, hne, ?_, ?_⟩
  · intro hiff
    apply hne
    apply hiff.mpr
    intro k cl hk
    rw [hnone k] at hk
    exact absurd hk (by simp)
  · rintro ⟨k, cl, hk, _⟩
    rw [hnone k] at hk
    exact absurd hk (by simp)

/-- C8, amended.  In the state where any execution from `NewCoordinator` returns
from its last step or parks: every session is stored under its own id; every
session with a non-empty id and `InCritical = true` is the session of
`CurrentHolder`; hence if `CurrentHolder` is empty every session with a non-empty
id has `InCritical = false`, and at most one session with a non-empty id has
`InCritical = true`. -/
theorem holder_flag_agreement (tr : List Event) :
    (∀ k cl, (lastState tr).Clients k = some cl → cl.ID = k)
    ∧ (∀ k cl, (lastState tr).Clients k = some cl → cl.InCritical = true → k ≠ "" →
        k = (lastState tr).CurrentHolder)
    ∧ ((lastState tr).CurrentHolder = "" →
        ∀ k cl, (lastState tr).Clients k = some cl → k ≠ "" → cl.InCritical = false)
    ∧ (∀ k1 k2 c1 c2, (lastState tr).Clients k1 = some c1 → (lastState tr).Clients k2 = some c2 →
        c1.InCritical = true → c2.InCritical = true → k1 ≠ "" → k2 ≠ "" → k1 = k2) := by
  have h := flags_lastState tr
  refine ⟨fun k cl hk => (h k cl hk).1, fun k cl hk => (h k cl hk).2, ?_, ?_⟩
  · intro hempty k cl hk hne
    cases hcrit : cl.InCritical with
    | false => rfl
    | true =>
      have := (h k cl hk).2 hcrit hne
      rw [hempty] at this
      exact absurd this hne
  · intro k1 k2 c1 c2 hk1 hk2 hc1 hc2 hn1 hn2
    rw [(h k1 c1 hk1).2 hc1 hn1, (h k2 c2 hk2).2 hc2 hn2]

/-- C8, amended, on the execution in which `A` and `B` join, `A` is granted and
`B` waits: the session of `A` has its flag set and `A` is the holder. -/
theorem holder_flag_agreement_witness :
    (lastState waitingTrace).Clients "A" =
        some { ID := "A", Connection := 1, LastSeen := exampleTime, InCritical := true }
    ∧ "A" = (lastState waitingTrace).CurrentHolder := by
  have hs : (lastState waitingTrace).Clients "A" =
      some { ID := "A", Connection := 1, LastSeen := exampleTime, InCritical := true } := by
    decide
  exact ⟨hs, (holder_flag_agreement waitingTrace).2.1 "A" _ hs rfl (by decide)⟩

/-! ## The empty node id -/

/-- C1 fails on the code.  Clients with node ids `""` and `"B"` join and
request, every call returns, and in the resulting state both sessions have
`InCritical = true`: the grant to `""` leaves `CurrentHolder` equal to the empty
string, which `processQueue` reads as a free slot, so `B` is granted as well. -/
theorem two_sessions_in_critical :
    (runTrace emptyIdTrace NewCoordinator).returned = true
    ∧ (lastState emptyIdTrace).Clients "" =
        some { ID := "", Connection := 1, LastSeen := exampleTime, InCritical := true }
    ∧ (lastState emptyIdTrace).Clients "B" =
        some { ID := "B", Connection := 2, LastSeen := exampleTime, InCritical := true }
    ∧ (lastState emptyIdTrace).Sent = [(1, grantMessage 5), (2, grantMessage 7)]
    ∧ ¬ (∀ k1 k2 c1 c2, (lastState emptyIdTrace).Clients k1 = some c1 →
          (lastState emptyIdTrace).Clients k2 = some c2 →
          c1.InCritical = true → c2.InCritical = true → k1 = k2) := by
  have h1 : (lastState emptyIdTrace).Clients "" =
      some { ID := "", Connection := 1, LastSeen := exampleTime, InCritical := true } := by
    decide
  have h2 : (lastState emptyIdTrace).Clients "B" =
      some { ID := "B", Connection := 2, LastSeen := exampleTime, InCritical := true } := by
    decide
  refine ⟨by decide, h1, h2, by decide, ?_⟩
  intro hall
  exact absurd (hall "" "B" _ _ h1 h2 rfl rfl) (by decide)

/-- C4 fails on the code.  In the initial state, where the holder slot is empty
and no GRANT has been sent, a WRITE carrying the empty node id is appended to the
shared resource: the test `c.CurrentHolder == msg.NodeID` compares two empty
strings. -/
theorem write_without_grant :
    NewCoordinator.CurrentHolder = ""
    ∧ NewCoordinator.Sent = []
    ∧ NewCoordinator.SharedFile = ""
    ∧ (runTrace [anonymousWrite] NewCoordinator).returned = true
    ∧ (lastState [anonymousWrite]).SharedFile = "[2024-01-01 00:00:00.000] : intrusion\n"
    ∧ (lastState [anonymousWrite]).Sent = []
    ∧ (lastState [anonymousWrite]).CurrentHolder = "" := by
  decide

/-- A RELEASE from a node that is not the holder changes the logical clock only,
provided the slot is taken or nobody waits. -/
theorem release_by_non_holder_idle (c : Coordinator) (msg : Message) (conn : Conn)
    (now : Time) (hm : c.Mutex = false) (ht : msg.Typ = "RELEASE")
    (hn : msg.NodeID ≠ c.CurrentHolder)
    (hidle : c.RequestQueue = [] ∨ c.CurrentHolder ≠ "") :
    c.handleMessage msg conn now =
      .done () { c with LogicalClock := add64 (max c.LogicalClock msg.Timestamp) 1 } := by
  rw [c.handleMessage_release msg conn now hm ht, if_neg (fun h => hn h.symm)]
  exact Coordinator.processQueue_idle _ hidle

/-- C9 fails on the code.  After `A` was granted, a request with the empty node
id and a request of `B` queued up and `A` released, the grant went to the empty
id: `CurrentHolder` is empty again while `B` still waits.  A RELEASE from `C`,
who is not the holder, then makes `processQueue` grant `B`: the holder and the
queue change and a GRANT is sent. -/
theorem release_by_non_holder_grants :
    (runTrace strayReleaseTrace NewCoordinator).returned = true
    ∧ (lastState strayReleaseTrace).CurrentHolder = ""
    ∧ (lastState strayReleaseTrace).RequestQueue = [{ NodeID := "B", Timestamp := 3, Conn := 3 }]
    ∧ ("C" : String) ≠ (lastState strayReleaseTrace).CurrentHolder
    ∧ (runTrace (strayReleaseTrace ++ [msgEvent "RELEASE" "C" 5 4]) NewCoordinator).returned = true
    ∧ (lastState (strayReleaseTrace ++ [msgEvent "RELEASE" "C" 5 4])).CurrentHolder = "B"
    ∧ (lastState (strayReleaseTrace ++ [msgEvent "RELEASE" "C" 5 4])).RequestQueue = []
    ∧ (lastState (strayReleaseTrace ++ [msgEvent "RELEASE" "C" 5 4])).Sent =
        (lastState strayReleaseTrace).Sent ++ [(3, grantMessage 9)] := by
  decide

/-- A WRITE changes the shared resource only when its node id equals
`CurrentHolder`. -/
theorem write_appends_only_for_holder (c : Coordinator) (msg : Message) (conn : Conn)
    (now : Time) (hm : c.Mutex = false) (ht : msg.Typ = "WRITE")
    (hw : (c.handleMessage msg conn now).state.SharedFile ≠ c.SharedFile) :
    c.CurrentHolder = msg.NodeID := by
  by_contra hne
  rw [c.handleMessage_write msg conn now hm ht, if_neg hne] at hw
  exact hw rfl

/-! ## The mutex between steps -/

theorem Coordinator.processQueue_Mutex (c : Coordinator) :
    c.processQueue.state.Mutex = c.Mutex := by
  rcases c.processQueue_state with h | ⟨e, rest, _, _, h | h⟩ <;> rw [h] <;>
    simp [Coordinator.sendMessage]

/-- A step that returns from a state with the mutex free leaves the mutex free. -/
theorem step_done_mutex_free (c s : Coordinator) (e : Event) (hm : c.Mutex = false)
    (hr : c.step e = .done () s) : s.Mutex = false := by
  have hstate : (c.step e).state = s := by rw [hr]; rfl
  cases e with
  | message msg conn now =>
    simp only [Coordinator.step] at hr hstate
    by_cases h1 : msg.Typ = "JOIN"
    · rw [c.handleMessage_join msg conn now hm h1] at hstate
      rw [← hstate]; simpa using hm
    by_cases h2 : msg.Typ = "REQUEST"
    · rw [c.handleMessage_request msg conn now hm h2] at hstate
      rw [← hstate, Coordinator.processQueue_Mutex]; exact hm
    by_cases h3 : msg.Typ = "RELEASE"
    · rw [c.handleMessage_release msg conn now hm h3] at hstate
      rw [← hstate, Coordinator.processQueue_Mutex]
      split <;> exact hm
    by_cases h4 : msg.Typ = "HEARTBEAT"
    · rw [c.handleMessage_heartbeat msg conn now hm h4] at hstate
      rw [← hstate]; exact hm
    by_cases h5 : msg.Typ = "WRITE"
    · rw [c.handleMessage_write msg conn now hm h5] at hstate
      rw [← hstate]
      split
      · simpa using hm
      · exact hm
    · rw [c.handleMessage_other msg conn now hm h1 h2 h3 h4 h5] at hstate
      rw [← hstate]; exact hm
  | remove id =>
    simp only [Coordinator.step] at hr hstate
    cases hs : c.Clients id with
    | none =>
      rw [c.removeClient_absent id hm hs] at hstate
      rw [← hstate]; exact hm
    | some client =>
      rw [c.removeClient_present id client hm hs] at hr
      split at hr
      · cases hp : Coordinator.processQueue { purgedState c id client with CurrentHolder := "" } with
        | done v s1 =>
          rw [hp] at hr
          simp only [Run.bind_done, Run.done.injEq, true_and] at hr
          rw [← hr]; rfl
        | blocked s1 =>
          rw [hp] at hr
          simp at hr
      · simp only [Run.done.injEq, true_and] at hr
        rw [← hr]; rfl

theorem runTrace_done_mutex_free (tr : List Event) (c s : Coordinator) (hm : c.Mutex = false)
    (hr : runTrace tr c = .done () s) : s.Mutex = false := by
  induction tr generalizing c with
  | nil =>
    simp only [runTrace, Run.done.injEq, true_and] at hr
    rw [← hr]; exact hm
  | cons e es ih =>
    unfold runTrace at hr
    cases hstep : c.step e with
    | done v s1 =>
      rw [hstep] at hr
      exact ih s1 (step_done_mutex_free c s1 e hm hstep) hr
    | blocked s1 =>
      rw [hstep] at hr
      simp at hr

/-- Between two steps the mutex is free. -/
theorem Reachable.mutex_free (c : Coordinator) (h : Reachable c) : c.Mutex = false := by
  obtain ⟨tr, htr⟩ := h
  exact runTrace_done_mutex_free tr NewCoordinator c rfl htr

/-- A reachable state is the last state of an execution. -/
theorem Reachable.eq_lastState (c : Coordinator) (h : Reachable c) :
    ∃ tr : List Event, lastState tr = c := by
  obtain ⟨tr, htr⟩ := h
  exact ⟨tr, by unfold lastState; rw [htr]; rfl⟩

/-! ## Guards of the node -/

/-- C12. Node guards are no-ops.  Called with the node mutex free,
`requestAccess` on a node with `RequestPending` or `InCritical` set,
`releaseAccess` on a node with `InCritical` unset and `writeToResource` on a node
with `InCritical` unset return the node unchanged: no message is sent and
`InCritical`, `RequestPending` and `LogicalClock` keep their values. -/
theorem node_guards_noop (n : Node) (content : String) (hm : n.Mutex = false) :
    ((n.RequestPending = true ∨ n.InCritical = true) → n.requestAccess = .done () n)
    ∧ (n.InCritical = false → n.releaseAccess = .done () n)
    ∧ (n.InCritical = false → n.writeToResource content = .done () n) := by
  obtain ⟨i, k, co, m, ic, rp, cc, se⟩ := n
  simp only at hm
  subst hm
  refine ⟨?_, ?_, ?_⟩
  · intro h
    simp only at h
    simp [Node.requestAccess, Node.lock, Node.unlock, h]
  · intro h
    simp only at h
    simp [Node.releaseAccess, Node.lock, Node.unlock, h]
  · intro h
    simp only at h
    simp [Node.writeToResource, Node.lock, Node.unlock, h]

/-- C12 on a node that holds the lock (a second request is refused) and on an
idle node (release and write are refused). -/
theorem node_guards_noop_witness :
    holdingNode.Mutex = false ∧ idleNode.Mutex = false
    ∧ holdingNode.requestAccess = .done () holdingNode
    ∧ idleNode.releaseAccess = .done () idleNode
    ∧ idleNode.writeToResource "hello" = .done () idleNode :=
  ⟨rfl, rfl, (node_guards_noop holdingNode "" rfl).1 (Or.inr rfl),
    (node_guards_noop idleNode "" rfl).2.1 rfl,
    (node_guards_noop idleNode "hello" rfl).2.2 rfl⟩

/-! ## JOIN from a node that already has a session -/

theorem add64_max_wraps : add64 maxInt64 1 = minInt64 := by
  unfold add64 wrap64 maxInt64 minInt64
  norm_num

/-- C14 as stated fails.  On a fresh coordinator and a fresh node, whose clocks
are 0, receiving the largest `int64` timestamp sets the clock to the smallest
`int64`, which is below 0. -/
theorem updateClock_wraps :
    isInt64 NewCoordinator.LogicalClock ∧ isInt64 maxInt64
    ∧ (NewCoordinator.updateClock maxInt64).returned = true
    ∧ (NewCoordinator.updateClock maxInt64).state.LogicalClock = minInt64
    ∧ ((NewNode "Node1").updateClock maxInt64).state.LogicalClock = minInt64
    ∧ ¬ (NewCoordinator.LogicalClock ≤ (NewCoordinator.updateClock maxInt64).state.LogicalClock)
    ∧ ¬ ((NewNode "Node1").LogicalClock ≤
          ((NewNode "Node1").updateClock maxInt64).state.LogicalClock) := by
  decide

/-- C14, amended.  For `int64` values of the clock `c` and of the received
timestamp `t`, `updateClock t` of the coordinator and of the node sets the clock
to `max c t + 1`, strictly above both `c` and `t`, whenever `max c t` is not the
largest `int64`; when `max c t` is the largest `int64` the clock wraps to the
smallest `int64`. -/
theorem updateClock_monotone_below_max (c : Coordinator) (n : Node) (t : Int)
    (hc : c.Mutex = false) (hn : n.Mutex = false) (hcr : isInt64 c.LogicalClock)
    (hnr : isInt64 n.LogicalClock) (ht : isInt64 t) :
    (max c.LogicalClock t < maxInt64 →
        (c.updateClock t).state.LogicalClock = max c.LogicalClock t + 1
        ∧ c.LogicalClock < (c.updateClock t).state.LogicalClock
        ∧ t < (c.updateClock t).state.LogicalClock)
    ∧ (max c.LogicalClock t = maxInt64 → (c.updateClock t).state.LogicalClock = minInt64)
    ∧ (max n.LogicalClock t < maxInt64 →
        (n.updateClock t).state.LogicalClock = max n.LogicalClock t + 1
        ∧ n.LogicalClock < (n.updateClock t).state.LogicalClock
        ∧ t < (n.updateClock t).state.LogicalClock)
    ∧ (max n.LogicalClock t = maxInt64 → (n.updateClock t).state.LogicalClock = minInt64) := by
  have hmaxc : isInt64 (max c.LogicalClock t) := by
    rcases le_total c.LogicalClock t with h | h
    · rw [max_eq_right h]; exact ht
    · rw [max_eq_left h]; exact hcr
  have hmaxn : isInt64 (max n.LogicalClock t) := by
    rcases le_total n.LogicalClock t with h | h
    · rw [max_eq_right h]; exact ht
    · rw [max_eq_left h]; exact hnr
  rw [c.updateClock_free t hc, n.updateClock_ready t hn]
  simp only [Run.state_done]
  refine ⟨?_, ?_, ?_, ?_⟩
  · intro hlt
    rw [add64_one_exact _ hmaxc hlt]
    have h1 := le_max_left c.LogicalClock t
    have h2 := le_max_right c.LogicalClock t
    exact ⟨rfl, by omega, by omega⟩
  · intro heq
    rw [heq]; exact add64_max_wraps
  · intro hlt
    rw [add64_one_exact _ hmaxn hlt]
    have h1 := le_max_left n.LogicalClock t
    have h2 := le_max_right n.LogicalClock t
    exact ⟨rfl, by omega, by omega⟩
  · intro heq
    rw [heq]; exact add64_max_wraps

/-- C14, amended, on a fresh coordinator and a fresh node receiving timestamp 7:
both clocks become 8. -/
theorem updateClock_monotone_below_max_witness :
    NewCoordinator.Mutex = false ∧ (NewNode "Node1").Mutex = false
    ∧ isInt64 NewCoordinator.LogicalClock ∧ isInt64 (NewNode "Node1").LogicalClock ∧ isInt64 7
    ∧ max NewCoordinator.LogicalClock 7 < maxInt64
    ∧ (NewCoordinator.updateClock 7).state.LogicalClock = max NewCoordinator.LogicalClock 7 + 1
    ∧ NewCoordinator.LogicalClock < (NewCoordinator.updateClock 7).state.LogicalClock
    ∧ 7 < (NewCoordinator.updateClock 7).state.LogicalClock :=
  ⟨rfl, rfl, by decide, by decide, by decide, by decide,
    (updateClock_monotone_below_max NewCoordinator (NewNode "Node1") 7 rfl rfl
      (by decide) (by decide) (by decide)).1 (by decide)⟩

/-! ## The update rule and the largest `int64` -/

theorem Node.updateClock_parked (n : Node) (t : Int) (h : n.Mutex = true) :
    n.updateClock t = .blocked n := by
  simp [Node.updateClock, Node.lock, h]

theorem isInt64_max (a b : Int) (ha : isInt64 a) (hb : isInt64 b) : isInt64 (max a b) := by
  rcases le_total a b with h | h
  · rw [max_eq_right h]; exact hb
  · rw [max_eq_left h]; exact ha

/-- C16 as stated fails.  The request of `Y` waits on connection 1, which the
removal of `Z` has closed.  When `H` releases, `processQueue` pops the entry of
`Y`, writes the GRANT on the closed connection and returns: `Y` is the holder
and nothing is retried. -/
theorem grant_on_closed_connection :
    (runTrace closedGranteeTrace NewCoordinator).returned = true
    ∧ (lastState closedGranteeTrace).unwritable 1
    ∧ (lastState closedGranteeTrace).Sent = [(2, grantMessage 4), (1, grantMessage 7)]
    ∧ (lastState closedGranteeTrace).CurrentHolder = "Y"
    ∧ (lastState closedGranteeTrace).RequestQueue = [] := by
  decide

theorem grantedState_with_Closed (c : Coordinator) (e : QueueEntry) (rest : List QueueEntry)
    (closed : List Conn) :
    grantedState { c with Closed := closed } e rest =
      { grantedState c e rest with Closed := closed } := by
  unfold grantedState
  cases h : c.Clients e.NodeID <;> simp [h]

/-- The outcome of `processQueue` does not depend on which connections are
closed. -/
theorem Coordinator.processQueue_with_Closed (c : Coordinator) (closed : List Conn) :
    (Coordinator.processQueue { c with Closed := closed }).state =
      { c.processQueue.state with Closed := closed } := by
  by_cases hidle : c.RequestQueue = [] ∨ c.CurrentHolder ≠ ""
  · have h1 := Coordinator.processQueue_idle { c with Closed := closed } hidle
    rw [h1, c.processQueue_idle hidle]
    rfl
  · simp only [not_or, not_not] at hidle
    cases hs : sortSlice queueLess c.RequestQueue with
    | nil => exact absurd hs (sortSlice_ne_nil _ hidle.1)
    | cons e rest =>
      rcases Bool.eq_false_or_eq_true c.Mutex with hm | hm
      · have h1 := Coordinator.processQueue_held { c with Closed := closed } hidle.1 hidle.2
          e rest hs hm
        rw [h1, c.processQueue_held hidle.1 hidle.2 e rest hs hm, grantedState_with_Closed]
        rfl
      · have h1 := Coordinator.processQueue_free { c with Closed := closed } hidle.1 hidle.2
          e rest hs hm
        rw [h1, c.processQueue_free hidle.1 hidle.2 e rest hs hm, grantedState_with_Closed]
        rfl

/-- C16, amended.  `processQueue` never looks at the result of the write.  With
the slot empty, a non-empty queue and the mutex free it returns with a least
entry `e` of the queue as holder, the session of `e.NodeID`, if any, marked, the
other entries as queue, in ascending order of `(Timestamp, NodeID)` behind `e`,
and exactly one write attempted, that of the GRANT on `e.Conn`; no connection is
closed.  This is so whether or not `e.Conn` is closed, and the resulting state
is the same for every set of closed connections. -/
theorem processQueue_ignores_write_result (c : Coordinator) (hm : c.Mutex = false)
    (hh : c.CurrentHolder = "") (hq : c.RequestQueue ≠ []) :
    (∃ e : QueueEntry,
      c.RequestQueue.Perm (e :: c.processQueue.state.RequestQueue)
      ∧ (e :: c.processQueue.state.RequestQueue).Pairwise EntryLE
      ∧ c.processQueue.returned = true
      ∧ c.processQueue.state.CurrentHolder = e.NodeID
      ∧ c.processQueue.state.Sent =
          c.Sent ++ [(e.Conn,
            { Typ := "GRANT", NodeID := "COORDINATOR",
              Timestamp := add64 (max c.LogicalClock 0) 1,
              Content := "Acceso otorgado a sección crítica" })]
      ∧ c.processQueue.state.Closed = c.Closed
      ∧ (∀ cl, c.Clients e.NodeID = some cl →
          c.processQueue.state.Clients e.NodeID = some { cl with InCritical := true }))
    ∧ (∀ closed : List Conn,
        (Coordinator.processQueue { c with Closed := closed }).state =
          { c.processQueue.state with Closed := closed }) := by
  refine ⟨?_, c.processQueue_with_Closed⟩
  cases hs : sortSlice queueLess c.RequestQueue with
  | nil => exact absurd hs (sortSlice_ne_nil _ hq)
  | cons e rest =>
    have hperm : c.RequestQueue.Perm (e :: rest) := by
      rw [← hs]; exact (sortSlice_perm queueLess _).symm
    have hsorted : (e :: rest).Pairwise EntryLE := by
      rw [← hs]; exact sortSlice_queueLess_sorted _
    refine ⟨e, ?_⟩
    rw [c.processQueue_free hq hh e rest hs hm]
    refine ⟨?_, ?_, rfl, ?_, ?_, ?_, ?_⟩
    · simpa [Coordinator.sendMessage] using hperm
    · simpa [Coordinator.sendMessage] using hsorted
    · simp [Coordinator.sendMessage]
    · simp [Coordinator.sendMessage, grantMessage]
    · simp [Coordinator.sendMessage]
    · intro cl hcl
      simp [Coordinator.sendMessage, grantedState_Clients, hcl]

/-- C16, amended, on a state whose only waiting request sits on a closed
connection: the grant goes there all the same. -/
theorem processQueue_ignores_write_result_witness :
    closedGranteeState.Mutex = false ∧ closedGranteeState.CurrentHolder = ""
    ∧ closedGranteeState.RequestQueue ≠ []
    ∧ closedGranteeState.unwritable 1
    ∧ closedGranteeState.processQueue.state.CurrentHolder = "Y"
    ∧ closedGranteeState.processQueue.state.Sent =
        [(1, { Typ := "GRANT", NodeID := "COORDINATOR", Timestamp := 8,
               Content := "Acceso otorgado a sección crítica" })]
    ∧ (∃ e : QueueEntry,
        closedGranteeState.RequestQueue.Perm
          (e :: closedGranteeState.processQueue.state.RequestQueue)
        ∧ (e :: closedGranteeState.processQueue.state.RequestQueue).Pairwise EntryLE
        ∧ closedGranteeState.processQueue.returned = true
        ∧ closedGranteeState.processQueue.state.CurrentHolder = e.NodeID
        ∧ closedGranteeState.processQueue.state.Sent =
            closedGranteeState.Sent ++ [(e.Conn,
              { Typ := "GRANT", NodeID := "COORDINATOR",
                Timestamp := add64 (max closedGranteeState.LogicalClock 0) 1,
                Content := "Acceso otorgado a sección crítica" })]
        ∧ closedGranteeState.processQueue.state.Closed = closedGranteeState.Closed
        ∧ (∀ cl, closedGranteeState.Clients e.NodeID = some cl →
            closedGranteeState.processQueue.state.Clients e.NodeID =
              some { cl with InCritical := true }))
    ∧ ∀ closed : List Conn,
        (Coordinator.processQueue { closedGranteeState with Closed := closed }).state =
          { closedGranteeState.processQueue.state with Closed := closed } :=
  ⟨rfl, rfl, by decide, by decide, by decide, by decide,
    processQueue_ignores_write_result closedGranteeState rfl rfl (by decide)⟩

/-! ## The record written to the shared resource -/

theorem lineFeeds_append (a b : String) : lineFeeds (a ++ b) = lineFeeds a + lineFeeds b := by
  simp [lineFeeds, String.toList, List.count_append]

/-- C17 as stated fails.  The holder `A` writes the content `a`, line feed, `b`:
the record appended to the shared resource holds two line feeds, so it is two
lines. -/
theorem write_record_two_lines :
    waitingState.CurrentHolder = multiLineWrite.NodeID
    ∧ waitingState.SharedFile = ""
    ∧ (waitingState.handleMessage multiLineWrite 1 laterTime).returned = true
    ∧ (waitingState.handleMessage multiLineWrite 1 laterTime).state.SharedFile =
        "[2024-01-01 00:00:07.000] A: a\nb\n"
    ∧ lineFeeds (waitingState.handleMessage multiLineWrite 1 laterTime).state.SharedFile = 2 := by
  decide

/-- C17, amended.  A WRITE by the holder returns and appends to the shared
resource exactly the characters `[`, stamp, `] `, node id, `: `, content, line
feed, and makes one `logAccess` call.  The record holds one line feed more than
stamp, node id and content together; it is a single line exactly when none of
the three holds a line feed. -/
theorem write_record_format (c : Coordinator) (msg : Message) (conn : Conn) (now : Time)
    (hm : c.Mutex = false) (ht : msg.Typ = "WRITE") (hh : c.CurrentHolder = msg.NodeID) :
    (c.handleMessage msg conn now).returned = true
    ∧ (c.handleMessage msg conn now).state.SharedFile =
        c.SharedFile ++
          ("[" ++ now.formatted ++ "] " ++ msg.NodeID ++ ": " ++ msg.Content ++ "\n")
    ∧ (c.handleMessage msg conn now).state.AccessLog =
        (c.logAccess
          ("Nodo " ++ msg.NodeID ++ " escribió al recurso en " ++ now.formatted)).AccessLog
    ∧ lineFeeds ("[" ++ now.formatted ++ "] " ++ msg.NodeID ++ ": " ++ msg.Content ++ "\n") =
        lineFeeds now.formatted + lineFeeds msg.NodeID + lineFeeds msg.Content + 1
    ∧ (lineFeeds ("[" ++ now.formatted ++ "] " ++ msg.NodeID ++ ": " ++ msg.Content ++ "\n") = 1
        ↔ lineFeeds now.formatted = 0 ∧ lineFeeds msg.NodeID = 0 ∧ lineFeeds msg.Content = 0) := by
  have hcount :
      lineFeeds ("[" ++ now.formatted ++ "] " ++ msg.NodeID ++ ": " ++ msg.Content ++ "\n") =
        lineFeeds now.formatted + lineFeeds msg.NodeID + lineFeeds msg.Content + 1 := by
    have h1 : lineFeeds "[" = 0 := by decide
    have h2 : lineFeeds "] " = 0 := by decide
    have h3 : lineFeeds ": " = 0 := by decide
    have h4 : lineFeeds "\n" = 1 := by decide
    simp only [lineFeeds_append, h1, h2, h3, h4]
    omega
  rw [c.handleMessage_write msg conn now hm ht, if_pos hh]
  refine ⟨rfl, ?_, ?_, hcount, ?_⟩
  · simp [writeToSharedResource_SharedFile]
  · simp [writeToSharedResource_AccessLog, logAccess_AccessLog]
  · rw [hcount]
    omega

/-- C17, amended, on scenario S1: the holder `A` writes `hello`. -/
theorem write_record_format_witness :
    waitingState.Mutex = false ∧ waitingState.CurrentHolder = "A"
    ∧ (waitingState.handleMessage
        { Typ := "WRITE", NodeID := "A", Timestamp := 9, Content := "hello" } 1 laterTime
        ).state.SharedFile =
        waitingState.SharedFile ++
          ("[" ++ laterTime.formatted ++ "] " ++ "A" ++ ": " ++ "hello" ++ "\n") := by
  have hm : waitingState.Mutex = false := by decide
  have hh : waitingState.CurrentHolder = "A" := by decide
  exact ⟨hm, hh, (write_record_format waitingState
    { Typ := "WRITE", NodeID := "A", Timestamp := 9, Content := "hello" } 1 laterTime
    hm rfl hh).2.1⟩

/-! ## Executions whose events satisfy a condition -/

/-- A property kept by every step whose event satisfies `Q` holds in the last
state of every execution made of such events. -/
theorem runTrace_invariant_of (P : Coordinator → Prop) (Q : Event → Prop)
    (hstep : ∀ (c : Coordinator) (e : Event), Q e → P c → P (c.step e).state)
    (tr : List Event) (hall : ∀ e ∈ tr, Q e) (c : Coordinator) (h : P c) :
    P (runTrace tr c).state := by
  induction tr generalizing c with
  | nil => simpa [runTrace] using h
  | cons e es ih =>
    unfold runTrace
    have hs := hstep c e (hall e (List.mem_cons_self e es)) h
    have hrest : ∀ x ∈ es, Q x := fun x hx => hall x (List.mem_cons_of_mem e hx)
    cases hr : c.step e with
    | done v s =>
      rw [hr] at hs
      simpa using ih hrest s hs
    | blocked s =>
      rw [hr] at hs
      simpa using hs

/-- The two ways `processQueue` ends: it found nothing to do, or it popped the
head of the sorted queue. -/
theorem Coordinator.processQueue_idle_or_pop (c : Coordinator) :
    (c.processQueue.state = c ∧ (c.RequestQueue = [] ∨ c.CurrentHolder ≠ ""))
    ∨ ∃ (e : QueueEntry) (rest : List QueueEntry),
        c.CurrentHolder = "" ∧ sortSlice queueLess c.RequestQueue = e :: rest
        ∧ c.processQueue.state.CurrentHolder = e.NodeID
        ∧ c.processQueue.state.RequestQueue = rest
        ∧ ∀ k, c.processQueue.state.Clients k = (grantedState c e rest).Clients k := by
  by_cases hidle : c.RequestQueue = [] ∨ c.CurrentHolder ≠ ""
  · left
    rw [c.processQueue_idle hidle]
    exact ⟨rfl, hidle⟩
  · right
    simp only [not_or, not_not] at hidle
    cases hs : sortSlice queueLess c.RequestQueue with
    | nil => exact absurd hs (sortSlice_ne_nil _ hidle.1)
    | cons e rest =>
      refine ⟨e, rest, hidle.2, rfl, ?_⟩
      rcases Bool.eq_false_or_eq_true c.Mutex with hm | hm
      · rw [c.processQueue_held hidle.1 hidle.2 e rest hs hm]
        simp
      · rw [c.processQueue_free hidle.1 hidle.2 e rest hs hm]
        simp [Coordinator.sendMessage]

theorem sortSlice_mem (l : List QueueEntry) (x : QueueEntry) :
    x ∈ sortSlice queueLess l ↔ x ∈ l :=
  (sortSlice_perm queueLess l).mem_iff

theorem Coordinator.processQueue_Clients_dom (c : Coordinator) (k : String) (cl : Client)
    (h : c.processQueue.state.Clients k = some cl) : ∃ cl0, c.Clients k = some cl0 := by
  rcases c.processQueue_idle_or_pop with ⟨hs, _⟩ | ⟨e, rest, _, _, _, _, hcl⟩
  · rw [hs] at h; exact ⟨cl, h⟩
  · rw [hcl k, grantedState_Clients] at h
    cases hc : c.Clients k with
    | none => rw [hc] at h; simp at h
    | some cl0 => exact ⟨cl0, rfl⟩

theorem Coordinator.processQueue_returns (c : Coordinator) (hm : c.Mutex = false) :
    c.processQueue.returned = true := by
  by_cases hidle : c.RequestQueue = [] ∨ c.CurrentHolder ≠ ""
  · rw [c.processQueue_idle hidle]; rfl
  · simp only [not_or, not_not] at hidle
    cases hs : sortSlice queueLess c.RequestQueue with
    | nil => exact absurd hs (sortSlice_ne_nil _ hidle.1)
    | cons e rest =>
      rw [c.processQueue_free hidle.1 hidle.2 e rest hs hm]; rfl

/-! ## Sessions under non-empty ids -/

theorem keys_step (c : Coordinator) (e : Event) (hid : e.nodeID ≠ "") (h : KeysNonEmpty c) :
    KeysNonEmpty (c.step e).state := by
  rcases Bool.eq_false_or_eq_true c.Mutex with hm | hm
  · cases e with
    | message msg conn now =>
      simpa [Coordinator.step, c.handleMessage_held msg conn now hm] using h
    | remove id => simpa [Coordinator.step, c.removeClient_held id hm] using h
  · cases e with
    | message msg conn now =>
      simp only [Event.nodeID] at hid
      simp only [Coordinator.step]
      by_cases h1 : msg.Typ = "JOIN"
      · rw [c.handleMessage_join msg conn now hm h1]
        intro k cl hk
        simp only [Run.state_done, logAccess_Clients, mapSet] at hk
        split at hk
        · rename_i hke; rw [hke]; exact hid
        · exact h k cl hk
      by_cases h2 : msg.Typ = "REQUEST"
      · rw [c.handleMessage_request msg conn now hm h2]
        intro k cl hk
        obtain ⟨cl0, h0⟩ := Coordinator.processQueue_Clients_dom _ k cl hk
        exact h k cl0 h0
      by_cases h3 : msg.Typ = "RELEASE"
      · rw [c.handleMessage_release msg conn now hm h3]
        intro k cl hk
        obtain ⟨cl0, h0⟩ := Coordinator.processQueue_Clients_dom _ k cl hk
        split at h0
        · simp only at h0
          cases hc : c.Clients k with
          | none => rw [hc] at h0; simp at h0
          | some cl1 => exact h k cl1 hc
        · exact h k cl0 h0
      by_cases h4 : msg.Typ = "HEARTBEAT"
      · rw [c.handleMessage_heartbeat msg conn now hm h4]
        intro k cl hk
        simp only [Run.state_done] at hk
        cases hc : c.Clients k with
        | none => rw [hc] at hk; simp at hk
        | some cl1 => exact h k cl1 hc
      by_cases h5 : msg.Typ = "WRITE"
      · rw [c.handleMessage_write msg conn now hm h5]
        split
        · intro k cl hk
          simp only [Run.state_done, writeToSharedResource_Clients] at hk
          exact h k cl hk
        · exact h
      · rw [c.handleMessage_other msg conn now hm h1 h2 h3 h4 h5]
        exact h
    | remove id =>
      simp only [Coordinator.step]
      cases hs : c.Clients id with
      | none => rw [c.removeClient_absent id hm hs]; exact h
      | some client =>
        have hdel : ∀ k cl, mapDelete c.Clients id k = some cl → k ≠ "" := by
          intro k cl hk
          unfold mapDelete at hk
          split at hk
          · simp at hk
          · exact h k cl hk
        rw [c.removeClient_present id client hm hs]
        split
        · intro k cl hk
          rcases Run.state_bind_unlock
            (Coordinator.processQueue { purgedState c id client with CurrentHolder := "" })
            with hb | hb
          · rw [hb] at hk
            obtain ⟨cl0, h0⟩ := Coordinator.processQueue_Clients_dom _ k cl hk
            exact hdel k cl0 (by simpa using h0)
          · rw [hb] at hk
            have hk2 : (Coordinator.processQueue
                { purgedState c id client with CurrentHolder := "" }).state.Clients k = some cl := hk
            obtain ⟨cl0, h0⟩ := Coordinator.processQueue_Clients_dom _ k cl hk2
            exact hdel k cl0 (by simpa using h0)
        · intro k cl hk
          simp only [Run.state_done, Coordinator.unlock, purgedState_Clients] at hk
          exact hdel k cl hk

/-- C18. Mutual exclusion under well-formed identities.  If every message
handled and every `removeClient` argument of an execution from `NewCoordinator`
carries a non-empty node id, then in the state where the execution returns from
its last step or parks every session with `InCritical = true` has its id equal to
`CurrentHolder`, which is then non-empty; so at most one session has
`InCritical = true`. -/
theorem exclusion_with_nonempty_ids (tr : List Event) (hids : ∀ e ∈ tr, e.nodeID ≠ "") :
    (∀ k cl, (lastState tr).Clients k = some cl → cl.InCritical = true →
        cl.ID = (lastState tr).CurrentHolder ∧ (lastState tr).CurrentHolder ≠ "")
    ∧ (∀ k1 k2 c1 c2, (lastState tr).Clients k1 = some c1 → (lastState tr).Clients k2 = some c2 →
        c1.InCritical = true → c2.InCritical = true → k1 = k2 ∧ c1 = c2) := by
  have hflags := flags_lastState tr
  have hkeys : KeysNonEmpty (lastState tr) :=
    runTrace_invariant_of KeysNonEmpty (fun e => e.nodeID ≠ "") keys_step tr hids
      NewCoordinator (by intro k cl hk; simp [NewCoordinator] at hk)
  have hmain : ∀ k cl, (lastState tr).Clients k = some cl → cl.InCritical = true →
      k = (lastState tr).CurrentHolder :=
    fun k cl hk hc => (hflags k cl hk).2 hc (hkeys k cl hk)
  refine ⟨?_, ?_⟩
  · intro k cl hk hc
    have hkh := hmain k cl hk hc
    refine ⟨by rw [(hflags k cl hk).1]; exact hkh, ?_⟩
    rw [← hkh]
    exact hkeys k cl hk
  · intro k1 k2 c1 c2 hk1 hk2 hc1 hc2
    have hk : k1 = k2 := by rw [hmain k1 c1 hk1 hc1, hmain k2 c2 hk2 hc2]
    subst hk
    rw [hk1] at hk2
    exact ⟨rfl, Option.some.inj hk2⟩

/-- C18 on the execution in which `A` and `B` join, `A` is granted and `B`
waits. -/
theorem exclusion_with_nonempty_ids_witness :
    (∀ e ∈ waitingTrace, e.nodeID ≠ "")
    ∧ (lastState waitingTrace).Clients "A" =
        some { ID := "A", Connection := 1, LastSeen := exampleTime, InCritical := true }
    ∧ ("A" : String) = (lastState waitingTrace).CurrentHolder
    ∧ (lastState waitingTrace).CurrentHolder ≠ "" := by
  have hids : ∀ e ∈ waitingTrace, e.nodeID ≠ "" := by decide
  have hs : (lastState waitingTrace).Clients "A" =
      some { ID := "A", Connection := 1, LastSeen := exampleTime, InCritical := true } := by
    decide
  exact ⟨hids, hs, (exclusion_with_nonempty_ids waitingTrace hids).1 "A" _ hs rfl⟩

/-! ## An empty slot while requests wait -/

/-- C19 fails on the code.  After `A` was granted, a request with the empty node
id and a request of `B` queued up and `A` released, every call has returned, the
grant went to the empty id, and the state has `CurrentHolder` empty while the
request of `B` waits. -/
theorem slot_empty_while_request_waits :
    (runTrace strayReleaseTrace NewCoordinator).returned = true
    ∧ (lastState strayReleaseTrace).Mutex = false
    ∧ ¬ ((lastState strayReleaseTrace).CurrentHolder = "" →
          (lastState strayReleaseTrace).RequestQueue = []) := by
  decide

theorem slotBusy_processQueue (c : Coordinator) (h : ∀ e ∈ c.RequestQueue, e.NodeID ≠ "") :
    SlotBusyWhileWaiting c.processQueue.state := by
  rcases c.processQueue_idle_or_pop with ⟨hs, hidle⟩ | ⟨e, rest, _, hsort, hh, hq, _⟩
  · rw [hs]
    refine ⟨?_, h⟩
    intro hempty
    rcases hidle with hq | hne
    · exact hq
    · exact absurd hempty hne
  · have hmem : ∀ x ∈ e :: rest, x.NodeID ≠ "" := by
      intro x hx
      rw [← hsort] at hx
      exact h x ((sortSlice_mem _ x).mp hx)
    refine ⟨?_, ?_⟩
    · intro hempty
      rw [hh] at hempty
      exact absurd hempty (hmem e (List.mem_cons_self e rest))
    · intro x hx
      rw [hq] at hx
      exact hmem x (List.mem_cons_of_mem e hx)

theorem slotBusy_step (c : Coordinator) (e : Event) (hid : e.nodeID ≠ "")
    (h : SlotBusyWhileWaiting c) : SlotBusyWhileWaiting (c.step e).state := by
  rcases Bool.eq_false_or_eq_true c.Mutex with hm | hm
  · cases e with
    | message msg conn now =>
      simpa [Coordinator.step, c.handleMessage_held msg conn now hm] using h
    | remove id => simpa [Coordinator.step, c.removeClient_held id hm] using h
  · cases e with
    | message msg conn now =>
      simp only [Event.nodeID] at hid
      simp only [Coordinator.step]
      by_cases h1 : msg.Typ = "JOIN"
      · rw [c.handleMessage_join msg conn now hm h1]
        simpa [SlotBusyWhileWaiting] using h
      by_cases h2 : msg.Typ = "REQUEST"
      · rw [c.handleMessage_request msg conn now hm h2]
        apply slotBusy_processQueue
        intro x hx
        simp only [List.mem_append, List.mem_singleton] at hx
        rcases hx with hx | hx
        · exact h.2 x hx
        · rw [hx]; exact hid
      by_cases h3 : msg.Typ = "RELEASE"
      · rw [c.handleMessage_release msg conn now hm h3]
        apply slotBusy_processQueue
        split <;> exact h.2
      by_cases h4 : msg.Typ = "HEARTBEAT"
      · rw [c.handleMessage_heartbeat msg conn now hm h4]
        simpa [SlotBusyWhileWaiting] using h
      by_cases h5 : msg.Typ = "WRITE"
      · rw [c.handleMessage_write msg conn now hm h5]
        split
        · simpa [SlotBusyWhileWaiting] using h
        · simpa [SlotBusyWhileWaiting] using h
      · rw [c.handleMessage_other msg conn now hm h1 h2 h3 h4 h5]
        simpa [SlotBusyWhileWaiting] using h
    | remove id =>
      simp only [Coordinator.step]
      cases hs : c.Clients id with
      | none => rw [c.removeClient_absent id hm hs]; exact h
      | some client =>
        have hfil : ∀ x ∈ c.RequestQueue.filter (fun entry => entry.NodeID ≠ id),
            x.NodeID ≠ "" := fun x hx => h.2 x (List.mem_filter.mp hx).1
        rw [c.removeClient_present id client hm hs]
        split
        · have hq := slotBusy_processQueue
            { purgedState c id client with CurrentHolder := "" } (by simpa using hfil)
          rcases Run.state_bind_unlock
            (Coordinator.processQueue { purgedState c id client with CurrentHolder := "" })
            with hb | hb
          · rw [hb]; exact hq
          · rw [hb]; exact hq
        · refine ⟨?_, ?_⟩
          · intro hempty
            simp only [Run.state_done, Coordinator.unlock, purgedState_CurrentHolder,
              purgedState_RequestQueue] at hempty ⊢
            rw [h.1 hempty]
            rfl
          · intro x hx
            simp only [Run.state_done, Coordinator.unlock, purgedState_RequestQueue] at hx
            exact hfil x hx

/-- When no event carries the empty node id, the slot is never empty while a
request waits. -/
theorem slot_busy_with_nonempty_ids (tr : List Event) (hids : ∀ e ∈ tr, e.nodeID ≠ "") :
    (lastState tr).CurrentHolder = "" → (lastState tr).RequestQueue = [] :=
  (runTrace_invariant_of SlotBusyWhileWaiting (fun e => e.nodeID ≠ "") slotBusy_step tr hids
    NewCoordinator ⟨fun _ => rfl, by intro e he; simp [NewCoordinator] at he⟩).1

/-! ## Calls that never return -/

theorem Coordinator.handleMessage_returns (c : Coordinator) (msg : Message) (conn : Conn)
    (now : Time) (hm : c.Mutex = false) : (c.handleMessage msg conn now).returned = true := by
  by_cases h1 : msg.Typ = "JOIN"
  · rw [c.handleMessage_join msg conn now hm h1]; rfl
  by_cases h2 : msg.Typ = "REQUEST"
  · rw [c.handleMessage_request msg conn now hm h2]
    exact Coordinator.processQueue_returns _ hm
  by_cases h3 : msg.Typ = "RELEASE"
  · rw [c.handleMessage_release msg conn now hm h3]
    apply Coordinator.processQueue_returns
    split <;> exact hm
  by_cases h4 : msg.Typ = "HEARTBEAT"
  · rw [c.handleMessage_heartbeat msg conn now hm h4]; rfl
  by_cases h5 : msg.Typ = "WRITE"
  · rw [c.handleMessage_write msg conn now hm h5]
    split <;> rfl
  · rw [c.handleMessage_other msg conn now hm h1 h2 h3 h4 h5]; rfl

theorem Coordinator.addClient_returns (c : Coordinator) (id : String) (conn : Conn)
    (now : Time) (hm : c.Mutex = false) : (c.addClient id conn now).returned = true := by
  simp [Coordinator.addClient, Coordinator.lock, hm]

/-- Removing a holder with a session while a request of another node waits parks
with the mutex held. -/
theorem Coordinator.removeClient_parks (c : Coordinator) (id : String) (client : Client)
    (hm : c.Mutex = false) (hs : c.Clients id = some client) (hh : c.CurrentHolder = id)
    (hq : ∃ e ∈ c.RequestQueue, e.NodeID ≠ id) :
    (c.removeClient id).returned = false ∧ (c.removeClient id).state.Mutex = true := by
  obtain ⟨x, hx, hxid⟩ := hq
  have hne : c.RequestQueue.filter (fun entry => entry.NodeID ≠ id) ≠ [] := by
    intro hnil
    have hmem : x ∈ c.RequestQueue.filter (fun entry => entry.NodeID ≠ id) :=
      List.mem_filter.mpr ⟨hx, by simpa using hxid⟩
    rw [hnil] at hmem
    exact absurd hmem (List.not_mem_nil x)
  cases hsort : sortSlice queueLess (c.RequestQueue.filter (fun entry => entry.NodeID ≠ id)) with
  | nil => exact absurd hsort (sortSlice_ne_nil _ hne)
  | cons e rest =>
    rw [c.removeClient_holder_waiting id client hm hs hh e rest hsort]
    simp

/-- C20 fails on the code.  Entered with the mutex free, `handleMessage` and
`addClient` always return, but `removeClient id` never returns exactly when `id`
has a session, is the holder and a request of another node waits: the call chain
`removeClient`, `processQueue`, `updateClock` then reaches `Mutex.Lock` in a
state where `removeClient` still holds the mutex. -/
theorem removeClient_self_deadlock (c : Coordinator) (msg : Message) (conn : Conn)
    (now : Time) (id : String) (hm : c.Mutex = false) :
    (c.handleMessage msg conn now).returned = true
    ∧ (c.addClient id conn now).returned = true
    ∧ ((c.removeClient id).returned = false ↔
        ((∃ client, c.Clients id = some client) ∧ c.CurrentHolder = id
          ∧ ∃ e ∈ c.RequestQueue, e.NodeID ≠ id))
    ∧ ((c.removeClient id).returned = false →
        (c.removeClient id).state.Mutex = true
        ∧ (c.removeClient id).state.lock = .blocked (c.removeClient id).state
        ∧ (c.removeClient id).state.updateClock 0 = .blocked (c.removeClient id).state) := by
  have hiff : (c.removeClient id).returned = false ↔
      ((∃ client, c.Clients id = some client) ∧ c.CurrentHolder = id
        ∧ ∃ e ∈ c.RequestQueue, e.NodeID ≠ id) := by
    constructor
    · intro hret
      cases hs : c.Clients id with
      | none =>
        rw [c.removeClient_absent id hm hs] at hret
        simp at hret
      | some client =>
        by_cases hh : c.CurrentHolder = id
        · by_cases hq : c.RequestQueue.filter (fun entry => entry.NodeID ≠ id) = []
          · rw [c.removeClient_holder_alone id client hm hs hh hq] at hret
            simp at hret
          · obtain ⟨x, hx⟩ := List.exists_mem_of_ne_nil _ hq
            have hx2 := List.mem_filter.mp hx
            exact ⟨⟨client, rfl⟩, hh, x, hx2.1, by simpa using hx2.2⟩
        · rw [c.removeClient_present id client hm hs, if_neg hh] at hret
          simp at hret
    · rintro ⟨⟨client, hs⟩, hh, hq⟩
      exact (c.removeClient_parks id client hm hs hh hq).1
  refine ⟨c.handleMessage_returns msg conn now hm, c.addClient_returns id conn now hm, hiff, ?_⟩
  intro hret
  obtain ⟨⟨client, hs⟩, hh, hq⟩ := hiff.mp hret
  have hmx := (c.removeClient_parks id client hm hs hh hq).2
  refine ⟨hmx, ?_, ?_⟩
  · simp [Coordinator.lock, hmx]
  · exact Coordinator.updateClock_held _ 0 hmx

/-- C20 on scenario S4: `removeClient "A"` parks on its own lock. -/
theorem removeClient_self_deadlock_witness :
    holderDeathState.Mutex = false
    ∧ (holderDeathState.removeClient "A").returned = false
    ∧ (holderDeathState.removeClient "A").state.Mutex = true
    ∧ (holderDeathState.removeClient "A").state.lock =
        .blocked (holderDeathState.removeClient "A").state
    ∧ (holderDeathState.removeClient "A").state.updateClock 0 =
        .blocked (holderDeathState.removeClient "A").state := by
  have hm : holderDeathState.Mutex = false := by decide
  have hret : (holderDeathState.removeClient "A").returned = false := by decide
  exact ⟨hm, hret,
    (removeClient_self_deadlock holderDeathState rejoinMessage 5 laterTime "A" hm).2.2.2 hret⟩

/-! ## Timestamps of grants -/

theorem ClockAhead_advance (c : Coordinator) (t : Int) (h : ClockAhead c)
    (hroom : max c.LogicalClock t + 2 ≤ maxInt64) :
    add64 (max c.LogicalClock t) 1 = max c.LogicalClock t + 1 := by
  apply add64_one_exact
  · have h1 := le_max_left c.LogicalClock t
    have h0 := h.1
    unfold isInt64
    unfold minInt64 at *
    constructor <;> omega
  · omega

theorem ClockAhead_tick (c : Coordinator) (h : ClockAhead c) (hlt : c.LogicalClock < maxInt64) :
    add64 (max c.LogicalClock 0) 1 = c.LogicalClock + 1 := by
  rw [max_eq_left h.1]
  apply add64_one_exact _ _ hlt
  have h0 := h.1
  have h1 := h.2.1
  unfold isInt64
  unfold minInt64
  constructor <;> omega

/-- Entered with the mutex held, `processQueue` leaves the clock and the messages
sent as they are and only shrinks the queue. -/
theorem Coordinator.processQueue_clock_held (c : Coordinator) (hm : c.Mutex = true)
    (h : ClockAhead c) :
    ClockAhead c.processQueue.state
    ∧ c.processQueue.state.LogicalClock = c.LogicalClock
    ∧ c.processQueue.state.Sent = c.Sent := by
  by_cases hidle : c.RequestQueue = [] ∨ c.CurrentHolder ≠ ""
  · rw [c.processQueue_idle hidle]
    exact ⟨h, rfl, rfl⟩
  · simp only [not_or, not_not] at hidle
    cases hs : sortSlice queueLess c.RequestQueue with
    | nil => exact absurd hs (sortSlice_ne_nil _ hidle.1)
    | cons e rest =>
      rw [c.processQueue_held hidle.1 hidle.2 e rest hs hm]
      refine ⟨⟨by simpa using h.1, by simpa using h.2.1, ?_⟩, by simp, by simp⟩
      intro x hx
      simp only [Run.state_blocked, grantedState_RequestQueue, grantedState_LogicalClock] at hx ⊢
      apply h.2.2 x
      apply (sortSlice_mem _ x).mp
      rw [hs]
      exact List.mem_cons_of_mem e hx

/-- Entered with the mutex free and the clock below the largest `int64`,
`processQueue` keeps the clock ahead of the queue, never moves it back, and either
sends nothing or sends one GRANT, on the connection of a queue entry, whose
timestamp lies ahead of the clock and of the timestamp of that entry. -/
theorem Coordinator.processQueue_clock_free (c : Coordinator) (hm : c.Mutex = false)
    (h : ClockAhead c) (hlt : c.LogicalClock < maxInt64) :
    ClockAhead c.processQueue.state
    ∧ c.LogicalClock ≤ c.processQueue.state.LogicalClock
    ∧ (c.processQueue.state.Sent = c.Sent
      ∨ ∃ q ∈ c.RequestQueue, ∃ ts : Int,
          c.processQueue.state.Sent = c.Sent ++ [(q.Conn, grantMessage ts)]
          ∧ q.Timestamp < ts ∧ c.LogicalClock < ts) := by
  by_cases hidle : c.RequestQueue = [] ∨ c.CurrentHolder ≠ ""
  · rw [c.processQueue_idle hidle]
    exact ⟨h, le_refl _, Or.inl rfl⟩
  · simp only [not_or, not_not] at hidle
    cases hs : sortSlice queueLess c.RequestQueue with
    | nil => exact absurd hs (sortSlice_ne_nil _ hidle.1)
    | cons e rest =>
      have hmem : ∀ x ∈ e :: rest, x ∈ c.RequestQueue := by
        intro x hx
        apply (sortSlice_mem _ x).mp
        rw [hs]; exact hx
      have he := hmem e (List.mem_cons_self e rest)
      have htick := ClockAhead_tick c h hlt
      have h0 := h.1
      rw [c.processQueue_free hidle.1 hidle.2 e rest hs hm, htick]
      refine ⟨⟨?_, ?_, ?_⟩, ?_, Or.inr ⟨e, he, c.LogicalClock + 1, ?_, ?_, ?_⟩⟩
      · simp only [Run.state_done, Coordinator.sendMessage]; omega
      · simp only [Run.state_done, Coordinator.sendMessage]; omega
      · intro x hx
        simp only [Run.state_done, Coordinator.sendMessage, grantedState_RequestQueue] at hx ⊢
        have := h.2.2 x (hmem x (List.mem_cons_of_mem e hx))
        omega
      · simp only [Run.state_done, Coordinator.sendMessage]; omega
      · simp [Coordinator.sendMessage]
      · have := h.2.2 e he
        omega
      · omega

/-- A message handled with room on the clock: the clock stays ahead of the
queue, moves strictly ahead of its old value and of the timestamp of the message,
and either nothing is sent or one GRANT is sent, on the connection of an entry
that was queued or that this message queued, with a timestamp ahead of that
entry, of the message and of the old clock. -/
theorem clock_step_message (c : Coordinator) (msg : Message) (conn : Conn) (now : Time)
    (hm : c.Mutex = false) (h : ClockAhead c)
    (hroom : max c.LogicalClock msg.Timestamp + 2 ≤ maxInt64) :
    ClockAhead (c.handleMessage msg conn now).state
    ∧ c.LogicalClock < (c.handleMessage msg conn now).state.LogicalClock
    ∧ msg.Timestamp < (c.handleMessage msg conn now).state.LogicalClock
    ∧ ((c.handleMessage msg conn now).state.Sent = c.Sent
      ∨ ∃ q : QueueEntry,
          (q ∈ c.RequestQueue
            ∨ q = { NodeID := msg.NodeID, Timestamp := msg.Timestamp, Conn := conn })
          ∧ ∃ ts : Int,
              (c.handleMessage msg conn now).state.Sent = c.Sent ++ [(q.Conn, grantMessage ts)]
              ∧ q.Timestamp < ts ∧ msg.Timestamp < ts ∧ c.LogicalClock < ts) := by
  have hadv := ClockAhead_advance c msg.Timestamp h hroom
  have hl := le_max_left c.LogicalClock msg.Timestamp
  have hr := le_max_right c.LogicalClock msg.Timestamp
  have h0 := h.1
  have hq := h.2.2
  -- the state after the advance on receipt, with any queue whose entries are behind it
  have hplain : ∀ s : Coordinator, s.LogicalClock = max c.LogicalClock msg.Timestamp + 1 →
      s.RequestQueue = c.RequestQueue → s.Sent = c.Sent →
      ClockAhead s ∧ c.LogicalClock < s.LogicalClock ∧ msg.Timestamp < s.LogicalClock
      ∧ (s.Sent = c.Sent
        ∨ ∃ q : QueueEntry,
            (q ∈ c.RequestQueue
              ∨ q = { NodeID := msg.NodeID, Timestamp := msg.Timestamp, Conn := conn })
            ∧ ∃ ts : Int, s.Sent = c.Sent ++ [(q.Conn, grantMessage ts)]
                ∧ q.Timestamp < ts ∧ msg.Timestamp < ts ∧ c.LogicalClock < ts) := by
    intro s hclk hqueue hsent
    refine ⟨⟨by omega, by omega, ?_⟩, by omega, by omega, Or.inl hsent⟩
    intro x hx
    rw [hqueue] at hx
    have := hq x hx
    omega
  have hsched : ∀ s : Coordinator, s.Mutex = false →
      s.LogicalClock = max c.LogicalClock msg.Timestamp + 1 → s.Sent = c.Sent →
      (∀ x ∈ s.RequestQueue, x ∈ c.RequestQueue
        ∨ x = { NodeID := msg.NodeID, Timestamp := msg.Timestamp, Conn := conn }) →
      ClockAhead s.processQueue.state
      ∧ c.LogicalClock < s.processQueue.state.LogicalClock
      ∧ msg.Timestamp < s.processQueue.state.LogicalClock
      ∧ (s.processQueue.state.Sent = c.Sent
        ∨ ∃ q : QueueEntry,
            (q ∈ c.RequestQueue
              ∨ q = { NodeID := msg.NodeID, Timestamp := msg.Timestamp, Conn := conn })
            ∧ ∃ ts : Int, s.processQueue.state.Sent = c.Sent ++ [(q.Conn, grantMessage ts)]
                ∧ q.Timestamp < ts ∧ msg.Timestamp < ts ∧ c.LogicalClock < ts) := by
    intro s hsm hclk hsent hqueue
    have hs : ClockAhead s := by
      refine ⟨by omega, by omega, ?_⟩
      intro x hx
      rcases hqueue x hx with hx1 | hx2
      · have := hq x hx1
        omega
      · rw [hx2]
        show msg.Timestamp < s.LogicalClock
        omega
    obtain ⟨ha, hb, hc⟩ := s.processQueue_clock_free hsm hs (by omega)
    refine ⟨ha, by omega, by omega, ?_⟩
    rcases hc with hc | ⟨q, hqm, ts, hc1, hc2, hc3⟩
    · left; rw [hc, hsent]
    · right
      exact ⟨q, hqueue q hqm, ts, by rw [hc1, hsent], hc2, by omega, by omega⟩
  by_cases h1 : msg.Typ = "JOIN"
  · rw [c.handleMessage_join msg conn now hm h1]
    exact hplain _ (by simp [hadv]) (by simp) (by simp)
  by_cases h2 : msg.Typ = "REQUEST"
  · rw [c.handleMessage_request msg conn now hm h2]
    refine hsched _ (by exact hm) (by simp [hadv]) rfl ?_
    intro x hx
    simpa using hx
  by_cases h3 : msg.Typ = "RELEASE"
  · rw [c.handleMessage_release msg conn now hm h3]
    split
    · exact hsched _ (by exact hm) (by simp [hadv]) rfl (fun x hx => Or.inl hx)
    · exact hsched _ (by exact hm) (by simp [hadv]) rfl (fun x hx => Or.inl hx)
  by_cases h4 : msg.Typ = "HEARTBEAT"
  · rw [c.handleMessage_heartbeat msg conn now hm h4]
    exact hplain _ (by simp [hadv]) rfl rfl
  by_cases h5 : msg.Typ = "WRITE"
  · rw [c.handleMessage_write msg conn now hm h5]
    split
    · exact hplain _ (by simp [hadv]) (by simp) (by simp)
    · exact hplain _ (by simp [hadv]) rfl rfl
  · rw [c.handleMessage_other msg conn now hm h1 h2 h3 h4 h5]
    exact hplain _ (by simp [hadv]) rfl rfl

/-- A `removeClient` call keeps the clock ahead of the queue, does not touch the
clock and sends nothing. -/
theorem clock_step_remove (c : Coordinator) (id : String) (hm : c.Mutex = false)
    (h : ClockAhead c) :
    ClockAhead (c.removeClient id).state
    ∧ (c.removeClient id).state.LogicalClock = c.LogicalClock
    ∧ (c.removeClient id).state.Sent = c.Sent := by
  cases hs : c.Clients id with
  | none => rw [c.removeClient_absent id hm hs]; exact ⟨h, rfl, rfl⟩
  | some client =>
    have hp : ClockAhead (purgedState c id client) := by
      refine ⟨by simpa using h.1, by simpa using h.2.1, ?_⟩
      intro x hx
      simp only [purgedState_RequestQueue, purgedState_LogicalClock] at hx ⊢
      exact h.2.2 x (List.mem_filter.mp hx).1
    rw [c.removeClient_present id client hm hs]
    split
    · obtain ⟨ha, hb, hc⟩ := Coordinator.processQueue_clock_held
        { purgedState c id client with CurrentHolder := "" } (by simp) hp
      rcases Run.state_bind_unlock
        (Coordinator.processQueue { purgedState c id client with CurrentHolder := "" })
        with hbind | hbind
      · rw [hbind]
        exact ⟨ha, by simpa using hb, by simpa using hc⟩
      · rw [hbind]
        exact ⟨ha, by simpa [Coordinator.unlock] using hb,
          by simpa [Coordinator.unlock] using hc⟩
    · exact ⟨hp, by simp [Coordinator.unlock], by simp [Coordinator.unlock]⟩

theorem noWrap_cons (e : Event) (es : List Event) (c : Coordinator) :
    noWrap (e :: es) c = true ↔ e.room c = true ∧ noWrap es (c.step e).state = true := by
  simp [noWrap]

theorem Event.room_message (c : Coordinator) (msg : Message) (conn : Conn) (now : Time) :
    (Event.message msg conn now).room c = true ↔
      max c.LogicalClock msg.Timestamp + 2 ≤ maxInt64 := by
  simp [Event.room]

/-- Along an execution with room on the clock, started with the mutex free and
the clock ahead of the queue: the clock stays ahead of the queue and never moves
back, and if the execution returns the clock is ahead of the timestamp of every
message handled. -/
theorem clock_along_trace (tr : List Event) (c : Coordinator) (hm : c.Mutex = false)
    (h : ClockAhead c) (hroom : noWrap tr c = true) :
    ClockAhead (runTrace tr c).state
    ∧ c.LogicalClock ≤ (runTrace tr c).state.LogicalClock
    ∧ ((runTrace tr c).returned = true →
        ∀ msg conn now, Event.message msg conn now ∈ tr →
          msg.Timestamp < (runTrace tr c).state.LogicalClock) := by
  induction tr generalizing c with
  | nil =>
    refine ⟨by simpa [runTrace] using h, by simp [runTrace], ?_⟩
    intro _ msg conn now hmem
    simp at hmem
  | cons e es ih =>
    rw [noWrap_cons] at hroom
    obtain ⟨hre, hres⟩ := hroom
    -- facts about the first step
    have hstep : ClockAhead (c.step e).state
        ∧ c.LogicalClock ≤ (c.step e).state.LogicalClock
        ∧ ∀ msg conn now, e = Event.message msg conn now →
            msg.Timestamp < (c.step e).state.LogicalClock := by
      cases e with
      | message msg conn now =>
        rw [Event.room_message] at hre
        obtain ⟨ha, hb, hc, _⟩ := clock_step_message c msg conn now hm h hre
        refine ⟨ha, le_of_lt hb, ?_⟩
        intro m cn nw heq
        cases heq
        exact hc
      | remove id =>
        obtain ⟨ha, hb, _⟩ := clock_step_remove c id hm h
        refine ⟨ha, ?_, ?_⟩
        · show c.LogicalClock ≤ (c.removeClient id).state.LogicalClock
          rw [hb]
        · intro m cn nw heq
          cases heq
    unfold runTrace
    cases hr : c.step e with
    | done v s =>
      rw [hr] at hstep hres
      simp only [Run.state_done] at hstep hres
      have hsm : s.Mutex = false := step_done_mutex_free c s e hm hr
      obtain ⟨ia, ib, ic⟩ := ih s hsm hstep.1 hres
      simp only [Run.bind_done]
      refine ⟨ia, le_trans hstep.2.1 ib, ?_⟩
      intro hret msg conn now hmem
      rcases List.mem_cons.mp hmem with heq | hmem2
      · exact lt_of_lt_of_le (hstep.2.2 msg conn now heq.symm) ib
      · exact ic hret msg conn now hmem2
    | blocked s =>
      rw [hr] at hstep
      simp only [Run.state_blocked] at hstep
      simp only [Run.bind_blocked, Run.state_blocked]
      refine ⟨hstep.1, hstep.2.1, ?_⟩
      intro hret
      simp at hret

theorem runTrace_append_done (tr : List Event) (e : Event) (c s : Coordinator)
    (h : runTrace tr c = .done () s) : runTrace (tr ++ [e]) c = (s.step e).bind fun _ s1 =>
      .done () s1 := by
  induction tr generalizing c with
  | nil =>
    simp only [runTrace, Run.done.injEq, true_and] at h
    subst h
    simp [runTrace]
  | cons x xs ih =>
    simp only [List.cons_append]
    unfold runTrace at h ⊢
    cases hx : c.step x with
    | done v s1 =>
      rw [hx] at h
      simp only [Run.bind_done] at h ⊢
      exact ih s1 h
    | blocked s1 =>
      rw [hx] at h
      simp at h

theorem lastState_append (tr : List Event) (e : Event) (s : Coordinator)
    (h : runTrace tr NewCoordinator = .done () s) :
    lastState (tr ++ [e]) = (s.step e).state := by
  unfold lastState
  rw [runTrace_append_done tr e NewCoordinator s h]
  cases s.step e <;> rfl

theorem ClockAhead_NewCoordinator : ClockAhead NewCoordinator := by
  refine ⟨by simp [NewCoordinator], by simp [NewCoordinator, maxInt64], ?_⟩
  intro e he
  simp [NewCoordinator] at he

theorem writesUnderLock_logAccess_held (c : Coordinator) (rest : List LockAction) :
    writesUnderLock true (logAccessActions c ++ rest) = writesUnderLock true rest := by
  unfold logAccessActions
  split <;> simp [writesUnderLock]

theorem writesUnderLock_processQueue_held (c : Coordinator) (rest : List LockAction)
    (h : writesUnderLock true rest = true) :
    writesUnderLock true (processQueueActions c ++ rest) = true := by
  unfold processQueueActions
  split
  · simpa using h
  · cases hs : sortSlice queueLess c.RequestQueue with
    | nil => simpa [writesUnderLock] using h
    | cons e l =>
      cases hcl : c.Clients e.NodeID <;>
        simp [writesUnderLock, updateClockActions, hcl]

theorem writesUnderLock_processQueue_free (c : Coordinator) (rest : List LockAction)
    (hq : c.RequestQueue ≠ []) (hh : c.CurrentHolder = "") :
    writesUnderLock false (processQueueActions c ++ rest) = false := by
  unfold processQueueActions
  rw [if_neg (by simp [hq, hh])]
  simp [writesUnderLock]

/-- C15 fails on the code.  `updateClock`, `addClient`, `removeClient` and the
JOIN branch of `handleMessage` assign to shared fields only while the mutex is
held.  The other branches do not: a REQUEST arriving while the slot is empty, and
a RELEASE by the holder while a request waits, run `processQueue` after `Unlock`,
so the sort, the pop and the assignment to `CurrentHolder` happen with the mutex
free; a HEARTBEAT of a node with a session assigns `LastSeen`, and a WRITE by the
holder appends to `AccessLog`, without ever taking the mutex. -/
theorem lock_discipline_broken (c : Coordinator) (msg : Message) (conn : Conn) (id : String) :
    writesUnderLock false updateClockActions = true
    ∧ writesUnderLock false (addClientActions c) = true
    ∧ writesUnderLock false (removeClientActions id c) = true
    ∧ (msg.Typ = "JOIN" → writesUnderLock false (handleMessageActions msg conn c) = true)
    ∧ (msg.Typ = "REQUEST" → c.CurrentHolder = "" →
        writesUnderLock false (handleMessageActions msg conn c) = false)
    ∧ (msg.Typ = "RELEASE" → c.CurrentHolder = msg.NodeID → c.RequestQueue ≠ [] →
        writesUnderLock false (handleMessageActions msg conn c) = false)
    ∧ (msg.Typ = "HEARTBEAT" → (∃ cl, c.Clients msg.NodeID = some cl) →
        writesUnderLock false (handleMessageActions msg conn c) = false)
    ∧ (msg.Typ = "WRITE" → c.CurrentHolder = msg.NodeID →
        writesUnderLock false (handleMessageActions msg conn c) = false) := by
  have hadd : writesUnderLock false (addClientActions c) = true := by
    unfold addClientActions
    have hla := writesUnderLock_logAccess_held c
    generalize logAccessActions c = la at hla ⊢
    simp [writesUnderLock, hla]
  refine ⟨by decide, hadd, ?_, ?_, ?_, ?_, ?_, ?_⟩
  · unfold removeClientActions
    have hla := writesUnderLock_logAccess_held c
    generalize logAccessActions c = la at hla ⊢
    cases hcl : c.Clients id with
    | none => simp [writesUnderLock]
    | some client =>
      by_cases hh : c.CurrentHolder = id
      · simp only [hh, if_true, List.cons_append, List.nil_append, List.append_assoc]
        have hpq := writesUnderLock_processQueue_held
          { purgedState c id client with CurrentHolder := "" } [.unlock]
          (by simp [writesUnderLock])
        generalize processQueueActions { purgedState c id client with CurrentHolder := "" } = pq
          at hpq ⊢
        simp only [writesUnderLock, Bool.false_eq_true, if_false, Bool.true_and, hla]
        exact hpq
      · simp only [hh, if_false, List.cons_append, List.nil_append, List.append_assoc,
          List.append_nil]
        simp [writesUnderLock, hla]
  · intro ht
    unfold handleMessageActions
    rw [if_pos ht]
    generalize addClientActions c = ac at hadd ⊢
    simpa [updateClockActions, writesUnderLock] using hadd
  · intro ht hh
    unfold handleMessageActions
    rw [if_neg (by rw [ht]; decide), if_pos ht]
    have hpq := writesUnderLock_processQueue_free
      { c with RequestQueue := c.RequestQueue ++
          [{ NodeID := msg.NodeID, Timestamp := msg.Timestamp, Conn := conn }] } []
      (by simp) hh
    rw [List.append_nil] at hpq
    simp only
    generalize processQueueActions
      { c with RequestQueue := c.RequestQueue ++
          [{ NodeID := msg.NodeID, Timestamp := msg.Timestamp, Conn := conn }] } = pq at hpq ⊢
    simpa [updateClockActions, writesUnderLock] using hpq
  · intro ht hh hq
    unfold handleMessageActions
    rw [if_neg (by rw [ht]; decide), if_neg (by rw [ht]; decide), if_pos ht, if_pos hh]
    have hpq := writesUnderLock_processQueue_free { c with CurrentHolder := "" } [] hq rfl
    rw [List.append_nil] at hpq
    generalize processQueueActions { c with CurrentHolder := "" } = pq at hpq ⊢
    cases hcl : c.Clients msg.NodeID <;>
      simpa [updateClockActions, writesUnderLock] using hpq
  · rintro ht ⟨cl, hcl⟩
    unfold handleMessageActions
    rw [if_neg (by rw [ht]; decide), if_neg (by rw [ht]; decide), if_neg (by rw [ht]; decide),
      if_pos ht]
    simp [updateClockActions, writesUnderLock, hcl]
  · intro ht hh
    unfold handleMessageActions
    rw [if_neg (by rw [ht]; decide), if_neg (by rw [ht]; decide), if_neg (by rw [ht]; decide),
      if_neg (by rw [ht]; decide), if_pos ht, if_pos hh]
    unfold logAccessActions
    simp [updateClockActions, writesUnderLock]

/-- C15 on the first REQUEST after start-up: the call takes and releases the
mutex twice, then sorts and pops the queue and sets the holder with the mutex
free, before `updateClock(0)` takes it again. -/
theorem lock_discipline_broken_witness :
    handleMessageActions
        { Typ := "REQUEST", NodeID := "A", Timestamp := 1, Content := "" } 1 NewCoordinator =
      [.lock, .write .LogicalClock, .unlock,
       .lock, .write .RequestQueue, .unlock,
       .write .RequestQueue, .write .RequestQueue, .write .CurrentHolder,
       .lock, .write .LogicalClock, .unlock]
    ∧ writesUnderLock false
        (handleMessageActions
          { Typ := "REQUEST", NodeID := "A", Timestamp := 1, Content := "" } 1 NewCoordinator)
        = false :=
  ⟨by decide,
    (lock_discipline_broken NewCoordinator
      { Typ := "REQUEST", NodeID := "A", Timestamp := 1, Content := "" } 1 "A").2.2.2.2.1
      rfl rfl⟩
